import Mathlib

/-!
# Verification of the gdrive-client synchronization core

This file gives a shallow embedding of the reconciliation core of
`gdrive_client/main.py` (the `Drive` class methods `compare_files`,
`synchronize`, `download_file`, `upload_file`, `upload_folder`, and the
`Utils` timestamp codec) and proves properties of the embedding.

Modelling conventions:
* Machine timestamps are `Nat` seconds since the epoch.  Remote entries
  carry their `modifiedTime` already normalized to seconds (the codec that
  performs this normalization, `Utils.convert_datetime_timestamp` /
  `Utils.convert_timestamp_datetime`, is embedded and verified separately
  below).
* Python exceptions are modelled with `Except`/an `Option Err` channel;
  the distinguished exception classes that the code branches on
  (`FileNotFoundError`, `IsADirectoryError`, `NotADirectoryError`, API
  failures) are constructors of `Err`.
* `hashlib.md5(...).hexdigest()` is an external library call; it is
  modelled by the pure stand-in `md5hex`, a deterministic content
  fingerprint which, like a real hex digest, is never the empty string.
  Google Drive computes the `md5Checksum` field of an uploaded file from
  the uploaded bytes, which is modelled by storing `md5hex content`.
* A local directory listing is an association list from names to
  `Option LocalNode`; a `none` value models an entry that was returned by
  `os.listdir` but whose path has vanished before it is touched again
  (the listed-then-deleted race the code handles via
  `except FileNotFoundError`).
* The remote store adapter calls that can fail are driven by two boolean
  oracles in the configuration (`createOk` for `files().create`,
  `downloadOk` for `get_media`/metadata `get`), indexed by a per-run call
  counter, so that caught/uncaught failure behaviour can be stated.
* The recursion of `Drive.synchronize` is bounded by an explicit fuel
  parameter; exhausted fuel surfaces as the distinguished `Err.fuelOut`.
-/

namespace GC

/-- Stand-in for the external `hashlib.md5(file bytes).hexdigest()` call:
a pure, deterministic fingerprint of the content.  Like a real 32-digit
hex digest it is never empty, which is all the surrounding code depends
on. -/
def md5hex (content : String) : String :=
  "h" ++ toString content.length ++ "#" ++ content

theorem md5hex_ne_empty (c : String) : md5hex c ≠ "" := by
  intro h
  have h2 : (md5hex c).length = 0 := by rw [h]; rfl
  rw [md5hex] at h2
  simp [String.length_append] at h2
  obtain ⟨⟨⟨ha, _⟩, _⟩, _⟩ := h2
  exact absurd ha (by decide)

/-- The Python exception classes the synchronizer's control flow can
observe. -/
inductive Err where
  | fileNotFound
  | isADirectory
  | notADirectory
  | apiError
  | fuelOut
deriving DecidableEq, Repr

/-- Value of the `modified` variable of `Drive.compare_files`:
`False` / `"local"` / `"remote"`. -/
inductive Modified where
  | unchanged
  | localNewer
  | remoteNewer
deriving DecidableEq, Repr

/-- A node of the local file tree.  A directory's children map names to
`Option LocalNode`; a `none` child is an entry that appeared in the
directory listing but whose path has been deleted since (stale-listing
race). -/
inductive LocalNode where
  | file (content : String) (mtime : Nat)
  | dir (mtime : Nat) (children : List (String × Option LocalNode))

/-- A node of the remote (Drive) tree.  `md5Checksum` is the checksum
string the store reports for a file (absent for folders and for native
Google documents); `folder` corresponds to the
`application/vnd.google-apps.folder` mime type. -/
inductive RemoteNode where
  | file (mtime : Nat) (md5Checksum : Option String) (content : String)
  | folder (mtime : Nat) (children : List (String × RemoteNode))

abbrev LocalDir := List (String × Option LocalNode)
abbrev RemoteDir := List (String × RemoteNode)

/-- First-match lookup in an association list (Python `dict` access /
`next(item for item in ... if item["name"] == ...)`). -/
def lookupName {α : Type} : List (String × α) → String → Option α
  | [], _ => none
  | (m, v) :: xs, n => if m = n then some v else lookupName xs n

/-- Replace the value at the first occurrence of a name, appending the
binding if the name is absent (filesystem/remote-store update at one
name). -/
def setName {α : Type} : List (String × α) → String → α → List (String × α)
  | [], n, v => [(n, v)]
  | (m, w) :: xs, n, v =>
    if m = n then (n, v) :: xs else (m, w) :: setName xs n v

/-- The names of a listing, in listing order (`files_dict["names"]` /
`os.listdir`). -/
def keys {α : Type} : List (String × α) → List String
  | [] => []
  | p :: xs => p.1 :: keys xs

/-- The current state of a listed local name: `lookupName` returns
`some e` for every listed name, and the entry `e` is itself `none` when
the path vanished after listing.  Both "never listed" and "listed but
vanished" fail `os.path.exists` and raise `FileNotFoundError` on access,
so they collapse to `none` here. -/
def liveEntry : Option (Option LocalNode) → Option LocalNode
  | none => none
  | some e => e

def RemoteNode.mtime : RemoteNode → Nat
  | .file t _ _ => t
  | .folder t _ => t

/-- `remote_file_data.get("md5Checksum", None)`. -/
def RemoteNode.md5 : RemoteNode → Option String
  | .file _ s _ => s
  | .folder _ _ => none

/-- Whether the entry's mime type is `application/vnd.google-apps.folder`. -/
def RemoteNode.isFolder : RemoteNode → Bool
  | .file _ _ _ => false
  | .folder _ _ => true

/-- Python truthiness of the optional `md5Checksum` string
(`if modified and remote_md5`). -/
def optTruthy : Option String → Bool
  | none => false
  | some s => !(s == "")

/-- `os.path.getmtime` on a listed local entry (embeds
`Utils.get_local_file_timestamp`): works for files and directories,
raises `FileNotFoundError` for a vanished path. -/
def get_local_file_timestamp : Option LocalNode → Except Err Nat
  | none => .error .fileNotFound
  | some (.file _ t) => .ok t
  | some (.dir t _) => .ok t

/-- `open(path, "rb").read()` on a listed local entry: the content of a
file, `FileNotFoundError` for a vanished path, `IsADirectoryError` for a
directory. -/
def readEntry : Option LocalNode → Except Err String
  | none => .error .fileNotFound
  | some (.file c _) => .ok c
  | some (.dir _ _) => .error .isADirectory

/-- Embeds `Drive.compare_files` (main.py lines 241-261).

`localMtime` is `local_file_data["modifiedTime"]`, `readLocal` the
outcome of opening `local_file_data["path"]` for the md5 check (only
forced when the check runs), `remoteMtime`/`remoteMd5` the remote entry's
converted timestamp and optional checksum. -/
def compare_files (localMtime : Nat) (readLocal : Except Err String)
    (remoteMtime : Nat) (remoteMd5 : Option String) : Except Err Modified :=
  let modified : Modified :=
    if remoteMtime < localMtime then .localNewer
    else if localMtime < remoteMtime then .remoteNewer
    else .unchanged
  if modified != .unchanged && optTruthy remoteMd5 then
    (match readLocal with
     | .error e => .error e
     | .ok content =>
       if remoteMd5 == some (md5hex content) then .ok .unchanged
       else .ok modified : Except Err Modified)
  else .ok modified

/-- Embeds the per-name comparison step of `Drive.synchronize`
(main.py lines 296-306): read the local timestamp and run
`compare_files`, catching `FileNotFoundError` and forcing the decision to
`"remote"`. -/
def resolveCommon (le : Option LocalNode) (re : RemoteNode) : Except Err Modified :=
  match
    (match get_local_file_timestamp le with
     | .error e => .error e
     | .ok lt => compare_files lt (readEntry le) re.mtime re.md5 :
       Except Err Modified) with
  | .error .fileNotFound => .ok .remoteNewer
  | r => r

/-- Observable actions of one reconciliation pass: the remote-store
adapter calls that mutate or fetch (`download` = a completed
`get_media` + local write + `os.utime`, `createFile`/`createFolder` =
successful `files().create`), the caught failures logged by
`upload_file`/`upload_folder`, the per-name decision of the conflict
resolver, and the recursive (`recursive=True`) visits. -/
inductive Event where
  | resolved (name : String) (decision : Modified) (remoteIsFolder : Bool)
  | download (name : String)
  | createFile (name : String)
  | createFolder (name : String)
  | uploadFailed (name : String)
  | createFolderFailed (name : String)
  | visit (name : String)
deriving DecidableEq, Repr

/-- A transfer is an event that moves or creates content. -/
def Event.isTransfer : Event → Bool
  | .download _ => true
  | .createFile _ => true
  | .createFolder _ => true
  | _ => false

/-- Run configuration: the `--download-only` flag, the wall clock used
for server-assigned and write timestamps, and the two adapter-failure
oracles (indexed by per-run call counters). -/
structure Config where
  downloadOnly : Bool
  now : Nat
  createOk : Nat → Bool
  downloadOk : Nat → Bool

/-- Per-run bookkeeping threaded through a pass: adapter call counters
and the emitted events. -/
structure St where
  upCalls : Nat
  downCalls : Nat
  events : List Event
deriving Repr

def St.emit (st : St) (e : Event) : St :=
  { st with events := st.events ++ [e] }

/-- Issue one `files().create`/`update` call, consuming the create
oracle. -/
def St.createCall (cfg : Config) (st : St) : St × Bool :=
  ({ st with upCalls := st.upCalls + 1 }, cfg.createOk st.upCalls)

/-- Issue one `get_media` / metadata `files().get` call, consuming the
download oracle. -/
def St.downloadCall (cfg : Config) (st : St) : St × Bool :=
  ({ st with downCalls := st.downCalls + 1 }, cfg.downloadOk st.downCalls)

/-- Result of `Drive.download_file`: updated bookkeeping, the local
entry at the target name afterwards, and the propagated exception if
any. -/
structure DownloadResult where
  st : St
  entry : Option LocalNode
  err : Option Err

/-- Embeds `Drive.download_file` (main.py lines 120-161): fetch the
content (`get_media`), write it over the local path (raising
`IsADirectoryError` if the path is a directory), fetch the remote
`modifiedTime` and force the local mtime to it with `os.utime`.  No
failure here is caught.  A failed metadata call leaves the freshly
written file carrying the write-time mtime. -/
def download_file (cfg : Config) (st : St) (name : String)
    (target : Option LocalNode) (remoteMtime : Nat) (content : String) :
    DownloadResult :=
  let c1 := St.downloadCall cfg st
  if !c1.2 then ⟨c1.1, target, some .apiError⟩
  else match target with
    | some (.dir t ls) => ⟨c1.1, some (.dir t ls), some .isADirectory⟩
    | _ =>
      let c2 := St.downloadCall cfg c1.1
      if !c2.2 then ⟨c2.1, some (.file content cfg.now), some .apiError⟩
      else ⟨St.emit c2.1 (.download name), some (.file content remoteMtime), none⟩

/-- Embeds `Drive.upload_file` (main.py lines 164-213), create path (the
`update` branch is unreachable: its only call site sits after a
`continue`).  The download-only gate returns `False` before anything
else.  Reading the source's mtime (`get_local_file_timestamp`, line 171)
and opening it (`MediaFileUpload`) happen before the `try`, so a
vanished or directory source raises; only the API call itself is inside
the `try`, whose failure is caught, logged and reported as `False`.  On
success Drive stores the uploaded bytes with the metadata mtime and
serves their md5 as the checksum. -/
def upload_file (cfg : Config) (st : St) (name : String)
    (src : Option LocalNode) : St × Except Err (Option RemoteNode) :=
  if cfg.downloadOnly then (st, .ok none)
  else match src with
    | none => (st, .error .fileNotFound)
    | some (.dir _ _) => (st, .error .isADirectory)
    | some (.file content mtime) =>
      let c := St.createCall cfg st
      if c.2 then
        (St.emit c.1 (.createFile name),
          .ok (some (.file mtime (some (md5hex content)) content)))
      else (St.emit c.1 (.uploadFailed name), .ok none)

/-- Embeds `Drive.upload_folder` (main.py lines 216-238): download-only
gate first, then a `files().create` inside a `try` that catches every
failure and reports `False`.  A created folder carries a server-assigned
mtime and no children yet. -/
def upload_folder (cfg : Config) (st : St) (name : String) :
    St × Option RemoteNode :=
  if cfg.downloadOnly then (st, none)
  else
    let c := St.createCall cfg st
    if c.2 then (St.emit c.1 (.createFolder name), some (.folder cfg.now []))
    else (St.emit c.1 (.createFolderFailed name), none)

/-- Loop accumulator of one `synchronize` directory visit: bookkeeping,
the current local children, the current remote children, and the
propagating exception (`some` once a loop body raised). -/
structure Acc where
  st : St
  ls : LocalDir
  rs : RemoteDir
  err : Option Err

/-- Result of one `synchronize` call on a (local path, remote folder)
pair. -/
structure SyncOut where
  st : St
  localEntry : Option LocalNode
  remote : RemoteDir
  err : Option Err

/-- The recursive `synchronize` call made for subdirectories. -/
abbrev Recurse := St → Option LocalNode → RemoteDir → SyncOut

/-- Body of the `same_files` loop of `Drive.synchronize` (main.py lines
285-327) for one name: resolve the pair (forcing `"remote"` on a
vanished local path), then `continue` on `"local"` (the upload/recurse
code below it is dead), recurse on a newer remote folder, download a
newer remote file; `Unchanged` is a no-op.  An uncaught exception stops
the traversal by filling `err`, and every body is a no-op once `err` is
set. -/
def syncCommonOne (recurse : Recurse) (cfg : Config) (n : String)
    (acc : Acc) : Acc :=
  match acc.err with
  | some _ => acc
  | none =>
    match lookupName acc.rs n with
    | none => acc
    | some re =>
      let le := liveEntry (lookupName acc.ls n)
      match resolveCommon le re with
      | .error e => { acc with err := some e }
      | .ok m =>
        let st := St.emit acc.st (.resolved n m re.isFolder)
        match m, re with
        | .localNewer, _ => { acc with st := st }
        | .unchanged, _ => { acc with st := st }
        | .remoteNewer, .folder rmt rch =>
          let out := recurse (St.emit st (.visit n)) le rch
          ⟨out.st, setName acc.ls n out.localEntry,
            setName acc.rs n (.folder rmt out.remote), out.err⟩
        | .remoteNewer, .file rmt _ rc =>
          let d := download_file cfg st n le rmt rc
          ⟨d.st, setName acc.ls n d.entry, acc.rs, d.err⟩

/-- Body of the `different_files` loop for a name present only remotely
(main.py lines 336-351): recurse into a remote folder (the local
subdirectory is created inside the nested visit), download a remote
file. -/
def syncRemoteOnlyOne (recurse : Recurse) (cfg : Config) (n : String)
    (acc : Acc) : Acc :=
  match acc.err with
  | some _ => acc
  | none =>
    match lookupName acc.rs n with
    | none => acc
    | some (.folder rmt rch) =>
      let out := recurse (St.emit acc.st (.visit n)) none rch
      ⟨out.st, setName acc.ls n out.localEntry,
        setName acc.rs n (.folder rmt out.remote), out.err⟩
    | some (.file rmt _ rc) =>
      let d := download_file cfg acc.st n none rmt rc
      ⟨d.st, setName acc.ls n d.entry, acc.rs, d.err⟩

/-- Body of the `different_files` loop for a name present only locally
(main.py lines 353-365): create a remote folder and recurse into it when
the folder id comes back (skipping both when creation reports `False`),
otherwise upload the file as a new remote object. -/
def syncLocalOnlyOne (recurse : Recurse) (cfg : Config) (n : String)
    (acc : Acc) : Acc :=
  match acc.err with
  | some _ => acc
  | none =>
    match liveEntry (lookupName acc.ls n) with
    | some (.dir dmt dls) =>
      let u := upload_folder cfg acc.st n
      match u.2 with
      | none => { acc with st := u.1 }
      | some _ =>
        let out := recurse (St.emit u.1 (.visit n)) (some (.dir dmt dls)) []
        ⟨out.st, setName acc.ls n out.localEntry,
          setName acc.rs n (.folder cfg.now out.remote), out.err⟩
    | le =>
      let u := upload_file cfg acc.st n le
      match u.2 with
      | .error e => ⟨u.1, acc.ls, acc.rs, some e⟩
      | .ok none => { acc with st := u.1 }
      | .ok (some rnode) => ⟨u.1, acc.ls, setName acc.rs n rnode, none⟩

/-- The loop section of one `Drive.synchronize` directory visit
(main.py lines 275-365): list both sides, process the intersection of
the name sets, then the names only remote, then the names only local.
The Python `set` iteration order is fixed here as listing order with
duplicates dropped. -/
def syncDirBody (recurse : Recurse) (cfg : Config) (st : St)
    (ls0 : LocalDir) (rs : RemoteDir) : Acc :=
  let rnames := keys rs
  let lnames := keys ls0
  let same := (rnames.filter (fun n => lnames.contains n)).dedup
  let remoteOnly := (rnames.filter (fun n => !lnames.contains n)).dedup
  let localOnly := (lnames.filter (fun n => !rnames.contains n)).dedup
  let a1 := same.foldl (fun acc n => syncCommonOne recurse cfg n acc)
    ⟨st, ls0, rs, none⟩
  let a2 := remoteOnly.foldl (fun acc n => syncRemoteOnlyOne recurse cfg n acc) a1
  localOnly.foldl (fun acc n => syncLocalOnlyOne recurse cfg n acc) a2

/-- Embeds `Drive.synchronize` (main.py lines 264-365), bounded by
explicit fuel.  One visit: create the local directory if the path does
not exist (`os.makedirs`), raise `NotADirectoryError` from `os.listdir`
if it exists as a file, then run the loop section. -/
def synchronize (cfg : Config) : Nat → St → Option LocalNode → RemoteDir → SyncOut
  | 0, st, l, rs => ⟨st, l, rs, some .fuelOut⟩
  | fuel + 1, st, l, rs =>
    let node : LocalNode := match l with
      | none => .dir cfg.now []
      | some x => x
    match node with
    | .file c t => ⟨st, some (.file c t), rs, some .notADirectory⟩
    | .dir dmt ls0 =>
      let a3 := syncDirBody (synchronize cfg fuel) cfg st ls0 rs
      ⟨a3.st, some (.dir dmt a3.ls), a3.rs, a3.err⟩

theorem lookupName_setName_self {α : Type} (xs : List (String × α)) (n : String) (v : α) :
    lookupName (setName xs n v) n = some v := by
  induction xs with
  | nil => simp [setName, lookupName]
  | cons p xs ih =>
    by_cases h : p.1 = n
    · simp [setName, h, lookupName]
    · simp [setName, h, lookupName, ih]

theorem lookupName_setName_ne {α : Type} (xs : List (String × α)) (n m : String) (v : α)
    (h : m ≠ n) : lookupName (setName xs n v) m = lookupName xs m := by
  have hnm : ¬ n = m := fun hh => h hh.symm
  induction xs with
  | nil => simp [setName, lookupName, hnm]
  | cons p xs ih =>
    rcases p with ⟨a, b⟩
    by_cases hp : a = n
    · subst hp
      simp [setName, lookupName, hnm]
    · by_cases hm : a = m
      · subst hm
        simp [setName, lookupName, hp, ih]
      · simp [setName, lookupName, hp, hm, ih]

theorem setName_eq_self {α : Type} (xs : List (String × α)) (n : String) (v : α)
    (h : lookupName xs n = some v) : setName xs n v = xs := by
  induction xs with
  | nil => simp [lookupName] at h
  | cons p xs ih =>
    by_cases hp : p.1 = n
    · rw [lookupName, if_pos hp] at h
      cases h
      cases p with
      | mk a b => simp_all [setName]
    · rw [lookupName, if_neg hp] at h
      simp [setName, hp, ih h]

theorem lookupName_isSome_of_mem_keys {α : Type} (xs : List (String × α)) (n : String)
    (h : n ∈ keys xs) : (lookupName xs n).isSome := by
  induction xs with
  | nil => simp [keys] at h
  | cons p xs ih =>
    rw [keys, List.mem_cons] at h
    by_cases hp : p.1 = n
    · simp [lookupName, hp]
    · rcases h with h | h
      · exact absurd h.symm hp
      · simp [lookupName, hp, ih h]

theorem lookupName_eq_none_of_not_mem_keys {α : Type} (xs : List (String × α)) (n : String)
    (h : n ∉ keys xs) : lookupName xs n = none := by
  induction xs with
  | nil => rfl
  | cons p xs ih =>
    rw [keys, List.mem_cons] at h
    push_neg at h
    rw [lookupName, if_neg (fun hh => h.1 hh.symm)]
    exact ih h.2

theorem mem_keys_of_lookupName_isSome {α : Type} (xs : List (String × α)) (n : String)
    (h : (lookupName xs n).isSome) : n ∈ keys xs := by
  by_contra hmem
  rw [lookupName_eq_none_of_not_mem_keys xs n hmem] at h
  simp at h

theorem keys_setName_of_mem {α : Type} (xs : List (String × α)) (n : String) (v : α)
    (h : n ∈ keys xs) : keys (setName xs n v) = keys xs := by
  induction xs with
  | nil => simp [keys] at h
  | cons p xs ih =>
    rw [keys, List.mem_cons] at h
    by_cases hp : p.1 = n
    · simp [setName, hp, keys]
    · rcases h with h | h
      · exact absurd h.symm hp
      · simp [setName, hp, keys, ih h]

/-- The local entry reached from a (possibly absent) local root by
following a path of names through live directories: `some e` when the
path names a listed entry (`e = none` when that entry has vanished),
`none` when the path leads nowhere. -/
def getPathL : Option LocalNode → List String → Option (Option LocalNode)
  | e, [] => some e
  | some (.dir _ ls), n :: p =>
    (match lookupName ls n with
     | some e => getPathL e p
     | none => none)
  | _, _ :: _ => none

/-- The local entry reached from a directory's children list by a
non-empty path (the empty path names no entry). -/
def getPathLD (ls : LocalDir) : List String → Option (Option LocalNode)
  | [] => none
  | n :: p =>
    (match lookupName ls n with
     | some e => getPathL e p
     | none => none)

/-- The remote entry reached from a remote node by a path of names. -/
def getPathR : RemoteNode → List String → Option RemoteNode
  | r, [] => some r
  | .folder _ rs, n :: p =>
    (match lookupName rs n with
     | some r => getPathR r p
     | none => none)
  | .file _ _ _, _ :: _ => none

/-- The remote entry reached from a remote children list by a non-empty
path. -/
def getPathRD (rs : RemoteDir) : List String → Option RemoteNode
  | [] => none
  | n :: p =>
    (match lookupName rs n with
     | some r => getPathR r p
     | none => none)

/-- Local preservation at one path: a live file is still a live file
(content and mtime may have been overwritten), a live directory is
still a live directory; vanished or absent entries promise nothing. -/
def presL : Option (Option LocalNode) → Option (Option LocalNode) → Prop
  | some (some (.file _ _)), after => ∃ c t, after = some (some (.file c t))
  | some (some (.dir _ _)), after => ∃ t ls, after = some (some (.dir t ls))
  | _, _ => True

/-- Remote preservation at one path: a remote file entry is still a
remote file, a remote folder still a remote folder. -/
def presR : Option RemoteNode → Option RemoteNode → Prop
  | some (.file _ _ _), after => ∃ t s c, after = some (.file t s c)
  | some (.folder _ _), after => ∃ t rs, after = some (.folder t rs)
  | none, _ => True

theorem presL_refl (x : Option (Option LocalNode)) : presL x x := by
  rcases x with _ | e
  · trivial
  · rcases e with _ | node
    · trivial
    · cases node with
      | file c t => exact ⟨c, t, rfl⟩
      | dir t ls => exact ⟨t, ls, rfl⟩

theorem presR_refl (x : Option RemoteNode) : presR x x := by
  rcases x with _ | r
  · trivial
  · cases r with
    | file t s c => exact ⟨t, s, c, rfl⟩
    | folder t rs => exact ⟨t, rs, rfl⟩

theorem presL_trans {x y z : Option (Option LocalNode)}
    (h1 : presL x y) (h2 : presL y z) : presL x z := by
  rcases x with _ | e
  · trivial
  · rcases e with _ | node
    · trivial
    · cases node with
      | file c t =>
        obtain ⟨c1, t1, rfl⟩ := h1
        exact h2
      | dir t ls =>
        obtain ⟨t1, ls1, rfl⟩ := h1
        exact h2

theorem presR_trans {x y z : Option RemoteNode}
    (h1 : presR x y) (h2 : presR y z) : presR x z := by
  rcases x with _ | r
  · trivial
  · cases r with
    | file t s c =>
      obtain ⟨t1, s1, c1, rfl⟩ := h1
      exact h2
    | folder t rs =>
      obtain ⟨t1, rs1, rfl⟩ := h1
      exact h2

/-- Preservation between two loop accumulators: every local and remote
path is preserved. -/
def AccPres (a b : Acc) : Prop :=
  (∀ path, presL (getPathLD a.ls path) (getPathLD b.ls path)) ∧
  (∀ path, presR (getPathRD a.rs path) (getPathRD b.rs path))

theorem accPres_refl (a : Acc) : AccPres a a :=
  ⟨fun p => presL_refl _, fun p => presR_refl _⟩

theorem accPres_trans {a b c : Acc} (h1 : AccPres a b) (h2 : AccPres b c) :
    AccPres a c :=
  ⟨fun p => presL_trans (h1.1 p) (h2.1 p),
   fun p => presR_trans (h1.2 p) (h2.2 p)⟩

theorem getPathLD_setName_self (ls : LocalDir) (n : String)
    (e : Option LocalNode) (p : List String) :
    getPathLD (setName ls n e) (n :: p) = getPathL e p := by
  simp [getPathLD, lookupName_setName_self]

theorem getPathLD_setName_ne (ls : LocalDir) (n m : String)
    (e : Option LocalNode) (p : List String) (h : m ≠ n) :
    getPathLD (setName ls n e) (m :: p) = getPathLD ls (m :: p) := by
  simp [getPathLD, lookupName_setName_ne ls n m e h]

theorem getPathRD_setName_self (rs : RemoteDir) (n : String)
    (r : RemoteNode) (p : List String) :
    getPathRD (setName rs n r) (n :: p) = getPathR r p := by
  simp [getPathRD, lookupName_setName_self]

theorem getPathRD_setName_ne (rs : RemoteDir) (n m : String)
    (r : RemoteNode) (p : List String) (h : m ≠ n) :
    getPathRD (setName rs n r) (m :: p) = getPathRD rs (m :: p) := by
  simp [getPathRD, lookupName_setName_ne rs n m r h]

theorem liveEntry_eq_some {x : Option (Option LocalNode)} {v : LocalNode}
    (h : liveEntry x = some v) : x = some (some v) := by
  rcases x with _ | e
  · simp [liveEntry] at h
  · rw [liveEntry] at h
    rw [h]

theorem getPathR_folder_cons (t : Nat) (rs : RemoteDir) (k : String) (p : List String) :
    getPathR (.folder t rs) (k :: p) = getPathRD rs (k :: p) := rfl

theorem getPathL_dir_cons (t : Nat) (ls : LocalDir) (k : String) (p : List String) :
    getPathL (some (.dir t ls)) (k :: p) = getPathLD ls (k :: p) := rfl

/-- `download_file` preserves every path below the written name: a
directory target is returned untouched, a file target stays a file, an
absent target promises nothing. -/
theorem download_file_entry_pres (cfg : Config) (st : St) (n : String)
    (target : Option LocalNode) (rmt : Nat) (rc : String) (p : List String) :
    presL (getPathL target p) (getPathL (download_file cfg st n target rmt rc).entry p) := by
  rcases target with _ | node
  · rcases p with _ | ⟨k, p'⟩
    · simp [getPathL, presL]
    · simp [getPathL, presL]
  · cases node with
    | dir t ls =>
      have hentry : (download_file cfg st n (some (.dir t ls)) rmt rc).entry =
          some (.dir t ls) := by
        cases h1 : (St.downloadCall cfg st).2 with
        | false => simp [download_file, h1]
        | true => simp [download_file, h1]
      rw [hentry]
      exact presL_refl _
    | file c t =>
      rcases p with _ | ⟨k, p'⟩
      · have hentry : ∃ c2 t2,
            (download_file cfg st n (some (.file c t)) rmt rc).entry =
              some (.file c2 t2) := by
          cases h1 : (St.downloadCall cfg st).2 with
          | false => exact ⟨c, t, by simp [download_file, h1]⟩
          | true =>
            cases h2 : (St.downloadCall cfg (St.downloadCall cfg st).1).2 with
            | false => exact ⟨rc, cfg.now, by simp [download_file, h1, h2]⟩
            | true => exact ⟨rc, rmt, by simp [download_file, h1, h2]⟩
        obtain ⟨c2, t2, he⟩ := hentry
        rw [getPathL, he, getPathL]
        exact ⟨c2, t2, rfl⟩
      · simp [getPathL, presL]

/-- One loop body preserves every path and leaves every other name's
entry untouched. -/
def StepFrame (n : String) (a b : Acc) : Prop :=
  AccPres a b ∧
  ∀ m, m ≠ n →
    lookupName b.ls m = lookupName a.ls m ∧ lookupName b.rs m = lookupName a.rs m

theorem stepFrame_of_eq {n : String} {a b : Acc} (hls : b.ls = a.ls)
    (hrs : b.rs = a.rs) : StepFrame n a b := by
  constructor
  · exact ⟨fun p => by rw [hls]; exact presL_refl _,
      fun p => by rw [hrs]; exact presR_refl _⟩
  · intro m _
    rw [hls, hrs]
    exact ⟨rfl, rfl⟩

theorem presLD_setName (ls : LocalDir) (n : String) (v : Option LocalNode)
    (h : ∀ p, presL
      (match lookupName ls n with
       | some e => getPathL e p
       | none => none) (getPathL v p)) :
    ∀ path, presL (getPathLD ls path) (getPathLD (setName ls n v) path) := by
  intro path
  rcases path with _ | ⟨k, p⟩
  · simp [getPathLD, presL]
  · by_cases hk : k = n
    · subst hk
      rw [getPathLD_setName_self]
      rw [getPathLD]
      exact h p
    · rw [getPathLD_setName_ne ls n k v p hk]
      exact presL_refl _

theorem presRD_setName (rs : RemoteDir) (n : String) (v : RemoteNode)
    (h : ∀ p, presR
      (match lookupName rs n with
       | some r => getPathR r p
       | none => none) (getPathR v p)) :
    ∀ path, presR (getPathRD rs path) (getPathRD (setName rs n v) path) := by
  intro path
  rcases path with _ | ⟨k, p⟩
  · simp [getPathRD, presR]
  · by_cases hk : k = n
    · subst hk
      rw [getPathRD_setName_self]
      rw [getPathRD]
      exact h p
    · rw [getPathRD_setName_ne rs n k v p hk]
      exact presR_refl _

/-- A `same_files` body preserves every local and remote path. -/
theorem syncCommonOne_pres (cfg : Config) (fuel : Nat)
    (IH : ∀ (st : St) (l : Option LocalNode) (rs : RemoteDir) (path : List String),
      presL (getPathL l path) (getPathL (synchronize cfg fuel st l rs).localEntry path) ∧
      presR (getPathRD rs path) (getPathRD (synchronize cfg fuel st l rs).remote path))
    (n : String) (st : St) (ls : LocalDir) (rs : RemoteDir) (err : Option Err) :
    StepFrame n ⟨st, ls, rs, err⟩
      (syncCommonOne (synchronize cfg fuel) cfg n ⟨st, ls, rs, err⟩) := by
  rcases err with _ | e
  case some => exact stepFrame_of_eq rfl rfl
  rcases hre : lookupName rs n with _ | re
  · have hstep : syncCommonOne (synchronize cfg fuel) cfg n ⟨st, ls, rs, none⟩ =
        ⟨st, ls, rs, none⟩ := by
      simp [syncCommonOne, hre]
    rw [hstep]
    exact stepFrame_of_eq rfl rfl
  cases hres : resolveCommon (liveEntry (lookupName ls n)) re with
  | error e =>
    have hstep : syncCommonOne (synchronize cfg fuel) cfg n ⟨st, ls, rs, none⟩ =
        ⟨st, ls, rs, some e⟩ := by
      simp [syncCommonOne, hre, hres]
    rw [hstep]
    exact stepFrame_of_eq rfl rfl
  | ok m =>
    cases m with
    | localNewer =>
      have hstep : syncCommonOne (synchronize cfg fuel) cfg n ⟨st, ls, rs, none⟩ =
          ⟨St.emit st (.resolved n .localNewer re.isFolder), ls, rs, none⟩ := by
        simp [syncCommonOne, hre, hres]
      rw [hstep]
      exact stepFrame_of_eq rfl rfl
    | unchanged =>
      have hstep : syncCommonOne (synchronize cfg fuel) cfg n ⟨st, ls, rs, none⟩ =
          ⟨St.emit st (.resolved n .unchanged re.isFolder), ls, rs, none⟩ := by
        simp [syncCommonOne, hre, hres]
      rw [hstep]
      exact stepFrame_of_eq rfl rfl
    | remoteNewer =>
      cases re with
      | folder rmt rch =>
        rw [show syncCommonOne (synchronize cfg fuel) cfg n ⟨st, ls, rs, none⟩ =
            (let st2 := St.emit (St.emit st (.resolved n .remoteNewer
              (RemoteNode.folder rmt rch).isFolder)) (.visit n)
             let out := synchronize cfg fuel st2 (liveEntry (lookupName ls n)) rch
             ⟨out.st, setName ls n out.localEntry,
               setName rs n (.folder rmt out.remote), out.err⟩ : Acc) from by
          simp [syncCommonOne, hre, hres]]
        constructor
        · constructor
          · refine presLD_setName ls n _ ?_
            intro p
            rcases hls : lookupName ls n with _ | e0
            · simp [presL]
            · simp only [liveEntry]
              exact (IH _ e0 rch p).1
          · refine presRD_setName rs n _ ?_
            intro p
            rw [hre]
            rcases p with _ | ⟨k, p2⟩
            · exact ⟨rmt, _, rfl⟩
            · exact (IH _ (liveEntry (lookupName ls n)) rch (k :: p2)).2
        · intro m hm
          exact ⟨lookupName_setName_ne ls n m _ hm,
            lookupName_setName_ne rs n m _ hm⟩
      | file rmt rsum rc =>
        rw [show syncCommonOne (synchronize cfg fuel) cfg n ⟨st, ls, rs, none⟩ =
            (let st1 := St.emit st (.resolved n .remoteNewer
              (RemoteNode.file rmt rsum rc).isFolder)
             let d := download_file cfg st1 n (liveEntry (lookupName ls n)) rmt rc
             ⟨d.st, setName ls n d.entry, rs, d.err⟩ : Acc) from by
          simp [syncCommonOne, hre, hres]]
        constructor
        · constructor
          · refine presLD_setName ls n _ ?_
            intro p
            rcases hls : lookupName ls n with _ | e0
            · simp [presL]
            · simp only [liveEntry]
              exact download_file_entry_pres cfg _ n e0 rmt rc p
          · exact fun p => presR_refl _
        · intro m hm
          exact ⟨lookupName_setName_ne ls n m _ hm, rfl⟩

/-- A remote-only `different_files` body preserves every path, provided
the name is not bound locally (it never is: the name comes from the set
difference). -/
theorem syncRemoteOnlyOne_pres (cfg : Config) (fuel : Nat)
    (IH : ∀ (st : St) (l : Option LocalNode) (rs : RemoteDir) (path : List String),
      presL (getPathL l path) (getPathL (synchronize cfg fuel st l rs).localEntry path) ∧
      presR (getPathRD rs path) (getPathRD (synchronize cfg fuel st l rs).remote path))
    (n : String) (st : St) (ls : LocalDir) (rs : RemoteDir) (err : Option Err)
    (hls : lookupName ls n = none) :
    StepFrame n ⟨st, ls, rs, err⟩
      (syncRemoteOnlyOne (synchronize cfg fuel) cfg n ⟨st, ls, rs, err⟩) := by
  rcases err with _ | e
  case some => exact stepFrame_of_eq rfl rfl
  rcases hre : lookupName rs n with _ | re
  · have hstep : syncRemoteOnlyOne (synchronize cfg fuel) cfg n ⟨st, ls, rs, none⟩ =
        ⟨st, ls, rs, none⟩ := by
      simp [syncRemoteOnlyOne, hre]
    rw [hstep]
    exact stepFrame_of_eq rfl rfl
  cases re with
  | folder rmt rch =>
    rw [show syncRemoteOnlyOne (synchronize cfg fuel) cfg n ⟨st, ls, rs, none⟩ =
        (let out := synchronize cfg fuel (St.emit st (.visit n)) none rch
         ⟨out.st, setName ls n out.localEntry,
           setName rs n (.folder rmt out.remote), out.err⟩ : Acc) from by
      simp [syncRemoteOnlyOne, hre]]
    constructor
    · constructor
      · refine presLD_setName ls n _ ?_
        intro p
        rw [hls]
        simp [presL]
      · refine presRD_setName rs n _ ?_
        intro p
        rw [hre]
        rcases p with _ | ⟨k, p2⟩
        · exact ⟨rmt, _, rfl⟩
        · exact (IH _ none rch (k :: p2)).2
    · intro m hm
      exact ⟨lookupName_setName_ne ls n m _ hm,
        lookupName_setName_ne rs n m _ hm⟩
  | file rmt rsum rc =>
    rw [show syncRemoteOnlyOne (synchronize cfg fuel) cfg n ⟨st, ls, rs, none⟩ =
        (let d := download_file cfg st n none rmt rc
         ⟨d.st, setName ls n d.entry, rs, d.err⟩ : Acc) from by
      simp [syncRemoteOnlyOne, hre]]
    constructor
    · constructor
      · refine presLD_setName ls n _ ?_
        intro p
        rw [hls]
        simp [presL]
      · exact fun p => presR_refl _
    · intro m hm
      exact ⟨lookupName_setName_ne ls n m _ hm, rfl⟩

/-- A local-only `different_files` body preserves every path, provided
the name is not bound remotely (it never is: the name comes from the set
difference and earlier bodies only add their own names). -/
theorem syncLocalOnlyOne_pres (cfg : Config) (fuel : Nat)
    (IH : ∀ (st : St) (l : Option LocalNode) (rs : RemoteDir) (path : List String),
      presL (getPathL l path) (getPathL (synchronize cfg fuel st l rs).localEntry path) ∧
      presR (getPathRD rs path) (getPathRD (synchronize cfg fuel st l rs).remote path))
    (n : String) (st : St) (ls : LocalDir) (rs : RemoteDir) (err : Option Err)
    (hrs : lookupName rs n = none) :
    StepFrame n ⟨st, ls, rs, err⟩
      (syncLocalOnlyOne (synchronize cfg fuel) cfg n ⟨st, ls, rs, err⟩) := by
  rcases err with _ | e
  case some => exact stepFrame_of_eq rfl rfl
  rcases hle : liveEntry (lookupName ls n) with _ | node
  · have hu : (upload_file cfg st n none).2 = .ok none ∨
        (upload_file cfg st n none).2 = .error .fileNotFound := by
      by_cases hd : cfg.downloadOnly
      · exact .inl (by simp [upload_file, hd])
      · exact .inr (by simp [upload_file, hd])
    rcases hu with hu | hu <;>
      · rw [show syncLocalOnlyOne (synchronize cfg fuel) cfg n ⟨st, ls, rs, none⟩ =
            ({ st := (upload_file cfg st n none).1, ls := ls, rs := rs,
               err := match (upload_file cfg st n none).2 with
                      | .error e => some e
                      | .ok _ => none } : Acc) from by
          simp only [syncLocalOnlyOne, hle]
          rw [hu]]
        exact stepFrame_of_eq rfl rfl
  cases node with
  | file c t =>
    have hu : (upload_file cfg st n (some (.file c t))).2 = .ok none ∨
        (upload_file cfg st n (some (.file c t))).2 =
          .ok (some (.file t (some (md5hex c)) c)) := by
      by_cases hd : cfg.downloadOnly
      · exact .inl (by simp [upload_file, hd])
      · by_cases hc : (St.createCall cfg st).2
        · exact .inr (by simp [upload_file, hd, hc])
        · exact .inl (by simp [upload_file, hd, hc])
    rcases hu with hu | hu
    · rw [show syncLocalOnlyOne (synchronize cfg fuel) cfg n ⟨st, ls, rs, none⟩ =
          ({ st := (upload_file cfg st n (some (.file c t))).1, ls := ls, rs := rs,
             err := none } : Acc) from by
        simp only [syncLocalOnlyOne, hle]
        rw [hu]]
      exact stepFrame_of_eq rfl rfl
    · rw [show syncLocalOnlyOne (synchronize cfg fuel) cfg n ⟨st, ls, rs, none⟩ =
          ({ st := (upload_file cfg st n (some (.file c t))).1, ls := ls,
             rs := setName rs n (.file t (some (md5hex c)) c),
             err := none } : Acc) from by
        simp only [syncLocalOnlyOne, hle]
        rw [hu]]
      constructor
      · constructor
        · exact fun p => presL_refl _
        · refine presRD_setName rs n _ ?_
          intro p
          rw [hrs]
          simp [presR]
      · intro m hm
        exact ⟨rfl, lookupName_setName_ne rs n m _ hm⟩
  | dir dmt dls =>
    rcases hu : (upload_folder cfg st n).2 with _ | rnode
    · rw [show syncLocalOnlyOne (synchronize cfg fuel) cfg n ⟨st, ls, rs, none⟩ =
          ({ st := (upload_folder cfg st n).1, ls := ls, rs := rs,
             err := none } : Acc) from by
        simp only [syncLocalOnlyOne, hle]
        rw [hu]]
      exact stepFrame_of_eq rfl rfl
    · rw [show syncLocalOnlyOne (synchronize cfg fuel) cfg n ⟨st, ls, rs, none⟩ =
          ({ st := (synchronize cfg fuel (St.emit (upload_folder cfg st n).1 (.visit n))
               (some (.dir dmt dls)) []).st,
             ls := setName ls n (synchronize cfg fuel
               (St.emit (upload_folder cfg st n).1 (.visit n))
               (some (.dir dmt dls)) []).localEntry,
             rs := setName rs n (.folder cfg.now (synchronize cfg fuel
               (St.emit (upload_folder cfg st n).1 (.visit n))
               (some (.dir dmt dls)) []).remote),
             err := (synchronize cfg fuel (St.emit (upload_folder cfg st n).1 (.visit n))
               (some (.dir dmt dls)) []).err } : Acc) from by
        simp only [syncLocalOnlyOne, hle]
        rw [hu]]
      constructor
      · constructor
        · refine presLD_setName ls n _ ?_
          intro p
          rcases liveEntry_eq_some hle with h2
          rw [h2]
          exact (IH _ (some (.dir dmt dls)) [] p).1
        · refine presRD_setName rs n _ ?_
          intro p
          rw [hrs]
          simp [presR]
      · intro m hm
        exact ⟨lookupName_setName_ne ls n m _ hm,
          lookupName_setName_ne rs n m _ hm⟩

/-- The `same_files` loop preserves every path and every name outside
the processed list. -/
theorem commonFold_pres (cfg : Config) (fuel : Nat)
    (IH : ∀ (st : St) (l : Option LocalNode) (rs : RemoteDir) (path : List String),
      presL (getPathL l path) (getPathL (synchronize cfg fuel st l rs).localEntry path) ∧
      presR (getPathRD rs path) (getPathRD (synchronize cfg fuel st l rs).remote path)) :
    ∀ (L : List String) (acc : Acc),
      AccPres acc (L.foldl (fun a n => syncCommonOne (synchronize cfg fuel) cfg n a) acc) ∧
      ∀ m, m ∉ L →
        lookupName (L.foldl (fun a n => syncCommonOne (synchronize cfg fuel) cfg n a) acc).ls m =
          lookupName acc.ls m ∧
        lookupName (L.foldl (fun a n => syncCommonOne (synchronize cfg fuel) cfg n a) acc).rs m =
          lookupName acc.rs m := by
  intro L
  induction L with
  | nil => exact fun acc => ⟨accPres_refl _, fun m _ => ⟨rfl, rfl⟩⟩
  | cons n L ihL =>
    intro acc
    obtain ⟨st, ls, rs, err⟩ := acc
    have hstep := syncCommonOne_pres cfg fuel IH n st ls rs err
    have hrec := ihL (syncCommonOne (synchronize cfg fuel) cfg n ⟨st, ls, rs, err⟩)
    rw [List.foldl_cons]
    constructor
    · exact accPres_trans hstep.1 hrec.1
    · intro m hm
      rw [List.mem_cons] at hm
      push_neg at hm
      obtain ⟨h1, h2⟩ := hrec.2 m hm.2
      obtain ⟨h3, h4⟩ := hstep.2 m hm.1
      exact ⟨h1.trans h3, h2.trans h4⟩

/-- The remote-only loop preserves every path and every name outside the
processed list, given that the processed names are unbound locally. -/
theorem remoteOnlyFold_pres (cfg : Config) (fuel : Nat)
    (IH : ∀ (st : St) (l : Option LocalNode) (rs : RemoteDir) (path : List String),
      presL (getPathL l path) (getPathL (synchronize cfg fuel st l rs).localEntry path) ∧
      presR (getPathRD rs path) (getPathRD (synchronize cfg fuel st l rs).remote path)) :
    ∀ (L : List String), L.Nodup → ∀ (acc : Acc),
      (∀ m ∈ L, lookupName acc.ls m = none) →
      AccPres acc (L.foldl (fun a n => syncRemoteOnlyOne (synchronize cfg fuel) cfg n a) acc) ∧
      ∀ m, m ∉ L →
        lookupName (L.foldl (fun a n => syncRemoteOnlyOne (synchronize cfg fuel) cfg n a) acc).ls m =
          lookupName acc.ls m ∧
        lookupName (L.foldl (fun a n => syncRemoteOnlyOne (synchronize cfg fuel) cfg n a) acc).rs m =
          lookupName acc.rs m := by
  intro L
  induction L with
  | nil => exact fun _ acc _ => ⟨accPres_refl _, fun m _ => ⟨rfl, rfl⟩⟩
  | cons n L ihL =>
    intro hnd acc hpre
    rw [List.nodup_cons] at hnd
    obtain ⟨st, ls, rs, err⟩ := acc
    have hstep := syncRemoteOnlyOne_pres cfg fuel IH n st ls rs err
      (hpre n (List.mem_cons_self n L))
    have hpre2 : ∀ m ∈ L,
        lookupName (syncRemoteOnlyOne (synchronize cfg fuel) cfg n ⟨st, ls, rs, err⟩).ls m =
          none := by
      intro m hm
      have hne : m ≠ n := fun hh => hnd.1 (hh ▸ hm)
      rw [(hstep.2 m hne).1]
      exact hpre m (List.mem_cons_of_mem n hm)
    have hrec := ihL hnd.2 (syncRemoteOnlyOne (synchronize cfg fuel) cfg n ⟨st, ls, rs, err⟩)
      hpre2
    rw [List.foldl_cons]
    constructor
    · exact accPres_trans hstep.1 hrec.1
    · intro m hm
      rw [List.mem_cons] at hm
      push_neg at hm
      obtain ⟨h1, h2⟩ := hrec.2 m hm.2
      obtain ⟨h3, h4⟩ := hstep.2 m hm.1
      exact ⟨h1.trans h3, h2.trans h4⟩

/-- The local-only loop preserves every path and every name outside the
processed list, given that the processed names are unbound remotely. -/
theorem localOnlyFold_pres (cfg : Config) (fuel : Nat)
    (IH : ∀ (st : St) (l : Option LocalNode) (rs : RemoteDir) (path : List String),
      presL (getPathL l path) (getPathL (synchronize cfg fuel st l rs).localEntry path) ∧
      presR (getPathRD rs path) (getPathRD (synchronize cfg fuel st l rs).remote path)) :
    ∀ (L : List String), L.Nodup → ∀ (acc : Acc),
      (∀ m ∈ L, lookupName acc.rs m = none) →
      AccPres acc (L.foldl (fun a n => syncLocalOnlyOne (synchronize cfg fuel) cfg n a) acc) ∧
      ∀ m, m ∉ L →
        lookupName (L.foldl (fun a n => syncLocalOnlyOne (synchronize cfg fuel) cfg n a) acc).ls m =
          lookupName acc.ls m ∧
        lookupName (L.foldl (fun a n => syncLocalOnlyOne (synchronize cfg fuel) cfg n a) acc).rs m =
          lookupName acc.rs m := by
  intro L
  induction L with
  | nil => exact fun _ acc _ => ⟨accPres_refl _, fun m _ => ⟨rfl, rfl⟩⟩
  | cons n L ihL =>
    intro hnd acc hpre
    rw [List.nodup_cons] at hnd
    obtain ⟨st, ls, rs, err⟩ := acc
    have hstep := syncLocalOnlyOne_pres cfg fuel IH n st ls rs err
      (hpre n (List.mem_cons_self n L))
    have hpre2 : ∀ m ∈ L,
        lookupName (syncLocalOnlyOne (synchronize cfg fuel) cfg n ⟨st, ls, rs, err⟩).rs m =
          none := by
      intro m hm
      have hne : m ≠ n := fun hh => hnd.1 (hh ▸ hm)
      rw [(hstep.2 m hne).2]
      exact hpre m (List.mem_cons_of_mem n hm)
    have hrec := ihL hnd.2 (syncLocalOnlyOne (synchronize cfg fuel) cfg n ⟨st, ls, rs, err⟩)
      hpre2
    rw [List.foldl_cons]
    constructor
    · exact accPres_trans hstep.1 hrec.1
    · intro m hm
      rw [List.mem_cons] at hm
      push_neg at hm
      obtain ⟨h1, h2⟩ := hrec.2 m hm.2
      obtain ⟨h3, h4⟩ := hstep.2 m hm.1
      exact ⟨h1.trans h3, h2.trans h4⟩

/-- One directory visit's loop section preserves every path. -/
theorem syncDirBody_pres (cfg : Config) (fuel : Nat)
    (IH : ∀ (st : St) (l : Option LocalNode) (rs : RemoteDir) (path : List String),
      presL (getPathL l path) (getPathL (synchronize cfg fuel st l rs).localEntry path) ∧
      presR (getPathRD rs path) (getPathRD (synchronize cfg fuel st l rs).remote path))
    (st : St) (ls0 : LocalDir) (rs : RemoteDir) :
    AccPres ⟨st, ls0, rs, none⟩ (syncDirBody (synchronize cfg fuel) cfg st ls0 rs) := by
  have h1 := commonFold_pres cfg fuel IH
    (((keys rs).filter (fun n => (keys ls0).contains n)).dedup) ⟨st, ls0, rs, none⟩
  have hpre2 : ∀ m ∈ ((keys rs).filter (fun n => !(keys ls0).contains n)).dedup,
      lookupName (((keys rs).filter (fun n => (keys ls0).contains n)).dedup.foldl
        (fun a n => syncCommonOne (synchronize cfg fuel) cfg n a) ⟨st, ls0, rs, none⟩).ls m =
        none := by
    intro m hm
    have hmf := List.mem_filter.mp (List.mem_dedup.mp hm)
    have hnotl : m ∉ keys ls0 := by
      intro hmem
      have : (keys ls0).contains m = true := by simpa using hmem
      rw [this] at hmf
      simp at hmf
    have hnots : m ∉ ((keys rs).filter (fun n => (keys ls0).contains n)).dedup := by
      intro hmem
      exact hnotl (by simpa using (List.mem_filter.mp (List.mem_dedup.mp hmem)).2)
    rw [(h1.2 m hnots).1]
    exact lookupName_eq_none_of_not_mem_keys ls0 m hnotl
  have h2 := remoteOnlyFold_pres cfg fuel IH
    (((keys rs).filter (fun n => !(keys ls0).contains n)).dedup) (List.nodup_dedup _)
    (((keys rs).filter (fun n => (keys ls0).contains n)).dedup.foldl
      (fun a n => syncCommonOne (synchronize cfg fuel) cfg n a) ⟨st, ls0, rs, none⟩) hpre2
  have hpre3 : ∀ m ∈ ((keys ls0).filter (fun n => !(keys rs).contains n)).dedup,
      lookupName ((((keys rs).filter (fun n => !(keys ls0).contains n)).dedup.foldl
        (fun a n => syncRemoteOnlyOne (synchronize cfg fuel) cfg n a)
        (((keys rs).filter (fun n => (keys ls0).contains n)).dedup.foldl
          (fun a n => syncCommonOne (synchronize cfg fuel) cfg n a)
          ⟨st, ls0, rs, none⟩))).rs m = none := by
    intro m hm
    have hmf := List.mem_filter.mp (List.mem_dedup.mp hm)
    have hnotr : m ∉ keys rs := by
      intro hmem
      have : (keys rs).contains m = true := by simpa using hmem
      rw [this] at hmf
      simp at hmf
    have hnots : m ∉ ((keys rs).filter (fun n => (keys ls0).contains n)).dedup := by
      intro hmem
      exact hnotr (List.mem_of_mem_filter (List.mem_dedup.mp hmem))
    have hnoro : m ∉ ((keys rs).filter (fun n => !(keys ls0).contains n)).dedup := by
      intro hmem
      exact hnotr (List.mem_of_mem_filter (List.mem_dedup.mp hmem))
    rw [(h2.2 m hnoro).2, (h1.2 m hnots).2]
    exact lookupName_eq_none_of_not_mem_keys rs m hnotr
  have h3 := localOnlyFold_pres cfg fuel IH
    (((keys ls0).filter (fun n => !(keys rs).contains n)).dedup) (List.nodup_dedup _)
    ((((keys rs).filter (fun n => !(keys ls0).contains n)).dedup.foldl
      (fun a n => syncRemoteOnlyOne (synchronize cfg fuel) cfg n a)
      (((keys rs).filter (fun n => (keys ls0).contains n)).dedup.foldl
        (fun a n => syncCommonOne (synchronize cfg fuel) cfg n a)
        ⟨st, ls0, rs, none⟩))) hpre3
  exact accPres_trans (accPres_trans h1.1 h2.1) h3.1

/-- No `synchronize` pass deletes anything: every local or remote path is
preserved. -/
theorem synchronize_pres (cfg : Config) : ∀ (fuel : Nat) (st : St)
    (l : Option LocalNode) (rs : RemoteDir) (path : List String),
    presL (getPathL l path) (getPathL (synchronize cfg fuel st l rs).localEntry path) ∧
    presR (getPathRD rs path) (getPathRD (synchronize cfg fuel st l rs).remote path) := by
  intro fuel
  induction fuel with
  | zero => exact fun st l rs path => ⟨presL_refl _, presR_refl _⟩
  | succ fuel ih =>
    intro st l rs path
    rcases l with _ | node
    · have hbody := syncDirBody_pres cfg fuel ih st [] rs
      constructor
      · rcases path with _ | ⟨k, p⟩
        · simp [getPathL, presL]
        · simp [getPathL, presL]
      · exact hbody.2 path
    · cases node with
      | file c t => exact ⟨presL_refl _, presR_refl _⟩
      | dir dmt ls0 =>
        have hbody := syncDirBody_pres cfg fuel ih st ls0 rs
        constructor
        · rcases path with _ | ⟨k, p⟩
          · exact ⟨dmt, _, rfl⟩
          · exact hbody.1 (k :: p)
        · exact hbody.2 path

/-- C10: no synchronizer operation ever deletes a local or remote entry.
Along every path of names, a local file present before a pass is still a
local file afterwards (possibly with overwritten content or timestamp),
a local directory is still a directory, and likewise every remote file
and folder entry survives; so the set of names on each side only grows
or stays equal, under any configuration, fuel, oracle behaviour, and
even when the pass aborts with a propagated error. -/
theorem synchronize_never_deletes (cfg : Config) (fuel : Nat) (st : St)
    (l : Option LocalNode) (rs : RemoteDir) (path : List String) :
    presL (getPathL l path) (getPathL (synchronize cfg fuel st l rs).localEntry path) ∧
    presR (getPathRD rs path) (getPathRD (synchronize cfg fuel st l rs).remote path) :=
  synchronize_pres cfg fuel st l rs path

theorem commonFold_errSome (r : Recurse) (cfg : Config) (L : List String)
    (st : St) (ls : LocalDir) (rs : RemoteDir) (e : Err) :
    L.foldl (fun a n => syncCommonOne r cfg n a) ⟨st, ls, rs, some e⟩ =
      ⟨st, ls, rs, some e⟩ := by
  induction L with
  | nil => rfl
  | cons n L ihL => rw [List.foldl_cons]; exact ihL

theorem remoteOnlyFold_errSome (r : Recurse) (cfg : Config) (L : List String)
    (st : St) (ls : LocalDir) (rs : RemoteDir) (e : Err) :
    L.foldl (fun a n => syncRemoteOnlyOne r cfg n a) ⟨st, ls, rs, some e⟩ =
      ⟨st, ls, rs, some e⟩ := by
  induction L with
  | nil => rfl
  | cons n L ihL => rw [List.foldl_cons]; exact ihL

theorem localOnlyFold_errSome (r : Recurse) (cfg : Config) (L : List String)
    (st : St) (ls : LocalDir) (rs : RemoteDir) (e : Err) :
    L.foldl (fun a n => syncLocalOnlyOne r cfg n a) ⟨st, ls, rs, some e⟩ =
      ⟨st, ls, rs, some e⟩ := by
  induction L with
  | nil => rfl
  | cons n L ihL => rw [List.foldl_cons]; exact ihL

theorem syncCommonOne_frame (r : Recurse) (cfg : Config) (n : String) (st : St)
    (ls : LocalDir) (rs : RemoteDir) (err : Option Err) (m : String) (hm : m ≠ n) :
    lookupName (syncCommonOne r cfg n ⟨st, ls, rs, err⟩).ls m = lookupName ls m ∧
    lookupName (syncCommonOne r cfg n ⟨st, ls, rs, err⟩).rs m = lookupName rs m := by
  rcases err with _ | e
  · rcases hre : lookupName rs n with _ | re
    · simp [syncCommonOne, hre]
    · cases hres : resolveCommon (liveEntry (lookupName ls n)) re with
      | error e => simp [syncCommonOne, hre, hres]
      | ok mm =>
        cases mm <;> cases re <;>
          simp [syncCommonOne, hre, hres, lookupName_setName_ne _ _ _ _ hm]
  · exact ⟨rfl, rfl⟩

theorem syncRemoteOnlyOne_frame (r : Recurse) (cfg : Config) (n : String) (st : St)
    (ls : LocalDir) (rs : RemoteDir) (err : Option Err) (m : String) (hm : m ≠ n) :
    lookupName (syncRemoteOnlyOne r cfg n ⟨st, ls, rs, err⟩).ls m = lookupName ls m ∧
    lookupName (syncRemoteOnlyOne r cfg n ⟨st, ls, rs, err⟩).rs m = lookupName rs m := by
  rcases err with _ | e
  · rcases hre : lookupName rs n with _ | re
    · simp [syncRemoteOnlyOne, hre]
    · cases re <;>
        simp [syncRemoteOnlyOne, hre, lookupName_setName_ne _ _ _ _ hm]
  · exact ⟨rfl, rfl⟩

theorem syncLocalOnlyOne_frame (r : Recurse) (cfg : Config) (n : String) (st : St)
    (ls : LocalDir) (rs : RemoteDir) (err : Option Err) (m : String) (hm : m ≠ n) :
    lookupName (syncLocalOnlyOne r cfg n ⟨st, ls, rs, err⟩).ls m = lookupName ls m ∧
    lookupName (syncLocalOnlyOne r cfg n ⟨st, ls, rs, err⟩).rs m = lookupName rs m := by
  rcases err with _ | e
  · rcases hle : liveEntry (lookupName ls n) with _ | node
    · rcases hu : (upload_file cfg st n none).2 with e2 | v
      · simp [syncLocalOnlyOne, hle, hu]
      · rcases v with _ | rnode <;>
          simp [syncLocalOnlyOne, hle, hu, lookupName_setName_ne _ _ _ _ hm]
    · cases node with
      | file c t =>
        rcases hu : (upload_file cfg st n (some (.file c t))).2 with e2 | v
        · simp [syncLocalOnlyOne, hle, hu]
        · rcases v with _ | rnode <;>
            simp [syncLocalOnlyOne, hle, hu, lookupName_setName_ne _ _ _ _ hm]
      | dir dmt dls =>
        rcases hu : (upload_folder cfg st n).2 with _ | rnode <;>
          simp [syncLocalOnlyOne, hle, hu, lookupName_setName_ne _ _ _ _ hm]
  · exact ⟨rfl, rfl⟩

theorem commonFold_frame (r : Recurse) (cfg : Config) (L : List String)
    (acc : Acc) (m : String) (hm : m ∉ L) :
    lookupName (L.foldl (fun a n => syncCommonOne r cfg n a) acc).ls m =
      lookupName acc.ls m ∧
    lookupName (L.foldl (fun a n => syncCommonOne r cfg n a) acc).rs m =
      lookupName acc.rs m := by
  induction L generalizing acc with
  | nil => exact ⟨rfl, rfl⟩
  | cons n L ihL =>
    rw [List.mem_cons] at hm
    push_neg at hm
    rw [List.foldl_cons]
    obtain ⟨st, ls, rs, err⟩ := acc
    obtain ⟨h1, h2⟩ := ihL (syncCommonOne r cfg n ⟨st, ls, rs, err⟩) hm.2
    obtain ⟨h3, h4⟩ := syncCommonOne_frame r cfg n st ls rs err m hm.1
    exact ⟨h1.trans h3, h2.trans h4⟩

theorem remoteOnlyFold_frame (r : Recurse) (cfg : Config) (L : List String)
    (acc : Acc) (m : String) (hm : m ∉ L) :
    lookupName (L.foldl (fun a n => syncRemoteOnlyOne r cfg n a) acc).ls m =
      lookupName acc.ls m ∧
    lookupName (L.foldl (fun a n => syncRemoteOnlyOne r cfg n a) acc).rs m =
      lookupName acc.rs m := by
  induction L generalizing acc with
  | nil => exact ⟨rfl, rfl⟩
  | cons n L ihL =>
    rw [List.mem_cons] at hm
    push_neg at hm
    rw [List.foldl_cons]
    obtain ⟨st, ls, rs, err⟩ := acc
    obtain ⟨h1, h2⟩ := ihL (syncRemoteOnlyOne r cfg n ⟨st, ls, rs, err⟩) hm.2
    obtain ⟨h3, h4⟩ := syncRemoteOnlyOne_frame r cfg n st ls rs err m hm.1
    exact ⟨h1.trans h3, h2.trans h4⟩

theorem localOnlyFold_frame (r : Recurse) (cfg : Config) (L : List String)
    (acc : Acc) (m : String) (hm : m ∉ L) :
    lookupName (L.foldl (fun a n => syncLocalOnlyOne r cfg n a) acc).ls m =
      lookupName acc.ls m ∧
    lookupName (L.foldl (fun a n => syncLocalOnlyOne r cfg n a) acc).rs m =
      lookupName acc.rs m := by
  induction L generalizing acc with
  | nil => exact ⟨rfl, rfl⟩
  | cons n L ihL =>
    rw [List.mem_cons] at hm
    push_neg at hm
    rw [List.foldl_cons]
    obtain ⟨st, ls, rs, err⟩ := acc
    obtain ⟨h1, h2⟩ := ihL (syncLocalOnlyOne r cfg n ⟨st, ls, rs, err⟩) hm.2
    obtain ⟨h3, h4⟩ := syncLocalOnlyOne_frame r cfg n st ls rs err m hm.1
    exact ⟨h1.trans h3, h2.trans h4⟩

/-- A download that raised nothing wrote the remote content and forced
the local mtime to the remote mtime. -/
theorem download_file_ok_entry (cfg : Config) (st : St) (n : String)
    (target : Option LocalNode) (rmt : Nat) (rc : String)
    (h : (download_file cfg st n target rmt rc).err = none) :
    (download_file cfg st n target rmt rc).entry = some (.file rc rmt) := by
  cases h1 : (St.downloadCall cfg st).2 with
  | false => simp [download_file, h1] at h
  | true =>
    rcases target with _ | node
    · cases h2 : (St.downloadCall cfg (St.downloadCall cfg st).1).2 with
      | false => simp [download_file, h1, h2] at h
      | true => simp [download_file, h1, h2]
    · cases node with
      | dir t ls => simp [download_file, h1] at h
      | file c t =>
        cases h2 : (St.downloadCall cfg (St.downloadCall cfg st).1).2 with
        | false => simp [download_file, h1, h2] at h
        | true => simp [download_file, h1, h2]

/-- If a remote-only loop that completes without error processes a
remote file entry, the local side ends up holding that file's content
with the remote timestamp. -/
theorem remoteOnlyFold_downloads (r : Recurse) (cfg : Config) (n : String)
    (T : Nat) (sum : Option String) (C : String) :
    ∀ (L : List String), L.Nodup → n ∈ L →
      ∀ (st : St) (ls : LocalDir) (rs : RemoteDir),
      lookupName rs n = some (.file T sum C) →
      (L.foldl (fun a k => syncRemoteOnlyOne r cfg k a) ⟨st, ls, rs, none⟩).err = none →
      lookupName (L.foldl (fun a k => syncRemoteOnlyOne r cfg k a) ⟨st, ls, rs, none⟩).ls n =
        some (some (.file C T)) := by
  intro L
  induction L with
  | nil =>
    intro _ hn
    simp at hn
  | cons k L ihL =>
    intro hnd hn st ls rs hrs herr
    rw [List.nodup_cons] at hnd
    rw [List.foldl_cons] at herr ⊢
    by_cases hk : k = n
    · subst hk
      rw [show syncRemoteOnlyOne r cfg k ⟨st, ls, rs, none⟩ =
          ⟨(download_file cfg st k none T C).st,
            setName ls k (download_file cfg st k none T C).entry, rs,
            (download_file cfg st k none T C).err⟩ from by
        simp [syncRemoteOnlyOne, hrs]] at herr ⊢
      rcases hder : (download_file cfg st k none T C).err with _ | e
      · have hent := download_file_ok_entry cfg st k none T C hder
        have hf := remoteOnlyFold_frame r cfg L
          ⟨(download_file cfg st k none T C).st,
            setName ls k (download_file cfg st k none T C).entry, rs, none⟩ k hnd.1
        rw [hf.1]
        show lookupName (setName ls k (download_file cfg st k none T C).entry) k =
          some (some (.file C T))
        rw [hent, lookupName_setName_self]
      · rw [hder, remoteOnlyFold_errSome] at herr
        simp at herr
    · have hn2 : n ∈ L := by
        rcases List.mem_cons.mp hn with h | h
        · exact absurd h.symm hk
        · exact h
      have hfr := syncRemoteOnlyOne_frame r cfg k st ls rs none n
        (fun hh => hk hh.symm)
      rcases hacc : syncRemoteOnlyOne r cfg k ⟨st, ls, rs, none⟩ with ⟨st2, ls2, rs2, err2⟩
      rw [hacc] at hfr herr
      rcases err2 with _ | e2
      · exact ihL hnd.2 hn2 st2 ls2 rs2 (hfr.2.trans hrs) herr
      · rw [remoteOnlyFold_errSome] at herr
        simp at herr

/-- C5: for a name present only remotely as a file with content `C` and
remote timestamp `T`, after a `synchronize` pass over the directory that
completes without a propagated error, the local file with that name
exists, holds content `C`, and carries modification time exactly `T`. -/
theorem remote_only_file_downloaded (cfg : Config) (fuel : Nat) (st : St)
    (dmt : Nat) (ls0 : LocalDir) (rs : RemoteDir) (n : String)
    (T : Nat) (sum : Option String) (C : String)
    (hrs : lookupName rs n = some (.file T sum C))
    (hnl : n ∉ keys ls0)
    (herr : (synchronize cfg (fuel + 1) st (some (.dir dmt ls0)) rs).err = none) :
    ∃ ls3, (synchronize cfg (fuel + 1) st (some (.dir dmt ls0)) rs).localEntry =
        some (.dir dmt ls3) ∧
      lookupName ls3 n = some (some (.file C T)) := by
  have hnotsame : n ∉ ((keys rs).filter (fun k => (keys ls0).contains k)).dedup := by
    intro hmem
    exact hnl (by simpa using (List.mem_filter.mp (List.mem_dedup.mp hmem)).2)
  have hnotlocal : n ∉ ((keys ls0).filter (fun k => !(keys rs).contains k)).dedup := by
    intro hmem
    exact hnl (List.mem_of_mem_filter (List.mem_dedup.mp hmem))
  have hmemrem : n ∈ ((keys rs).filter (fun k => !(keys ls0).contains k)).dedup := by
    rw [List.mem_dedup, List.mem_filter]
    refine ⟨mem_keys_of_lookupName_isSome rs n (by rw [hrs]; rfl), ?_⟩
    simpa using hnl
  refine ⟨(syncDirBody (synchronize cfg fuel) cfg st ls0 rs).ls, rfl, ?_⟩
  have herrB : ((((keys ls0).filter (fun k => !(keys rs).contains k)).dedup).foldl
      (fun a k => syncLocalOnlyOne (synchronize cfg fuel) cfg k a)
      ((((keys rs).filter (fun k => !(keys ls0).contains k)).dedup).foldl
        (fun a k => syncRemoteOnlyOne (synchronize cfg fuel) cfg k a)
        ((((keys rs).filter (fun k => (keys ls0).contains k)).dedup).foldl
          (fun a k => syncCommonOne (synchronize cfg fuel) cfg k a)
          ⟨st, ls0, rs, none⟩))).err = none := herr
  show lookupName (((((keys ls0).filter (fun k => !(keys rs).contains k)).dedup).foldl
      (fun a k => syncLocalOnlyOne (synchronize cfg fuel) cfg k a)
      ((((keys rs).filter (fun k => !(keys ls0).contains k)).dedup).foldl
        (fun a k => syncRemoteOnlyOne (synchronize cfg fuel) cfg k a)
        ((((keys rs).filter (fun k => (keys ls0).contains k)).dedup).foldl
          (fun a k => syncCommonOne (synchronize cfg fuel) cfg k a)
          ⟨st, ls0, rs, none⟩))).ls) n = some (some (.file C T))
  have hfr1 := commonFold_frame (synchronize cfg fuel) cfg
    (((keys rs).filter (fun k => (keys ls0).contains k)).dedup) ⟨st, ls0, rs, none⟩ n
    hnotsame
  rcases ha1 : (((keys rs).filter (fun k => (keys ls0).contains k)).dedup).foldl
      (fun a k => syncCommonOne (synchronize cfg fuel) cfg k a) ⟨st, ls0, rs, none⟩
    with ⟨st1, ls1, rs1, err1⟩
  rw [ha1] at hfr1 herrB
  rcases err1 with _ | e1
  · have hrs1 : lookupName rs1 n = some (.file T sum C) := hfr1.2.trans hrs
    rcases ha2 : (((keys rs).filter (fun k => !(keys ls0).contains k)).dedup).foldl
        (fun a k => syncRemoteOnlyOne (synchronize cfg fuel) cfg k a)
        ⟨st1, ls1, rs1, none⟩ with ⟨st2, ls2, rs2, err2⟩
    rw [ha2] at herrB
    rcases err2 with _ | e2
    · have herr2 : ((((keys rs).filter (fun k => !(keys ls0).contains k)).dedup).foldl
          (fun a k => syncRemoteOnlyOne (synchronize cfg fuel) cfg k a)
          ⟨st1, ls1, rs1, none⟩).err = none := by rw [ha2]
      have hdl := remoteOnlyFold_downloads (synchronize cfg fuel) cfg n T sum C
        (((keys rs).filter (fun k => !(keys ls0).contains k)).dedup)
        (List.nodup_dedup _) hmemrem st1 ls1 rs1 hrs1 herr2
      rw [ha2] at hdl
      have hfr3 := localOnlyFold_frame (synchronize cfg fuel) cfg
        (((keys ls0).filter (fun k => !(keys rs).contains k)).dedup)
        ⟨st2, ls2, rs2, none⟩ n hnotlocal
      rw [hfr3.1]
      exact hdl
    · rw [localOnlyFold_errSome] at herrB
      simp at herrB
  · rw [remoteOnlyFold_errSome, localOnlyFold_errSome] at herrB
    simp at herrB

/-- Witness for C5 at a concrete input: remote-only file `doc` with
content `hello` and timestamp 42 appears locally with exactly that
content and mtime. -/
theorem remote_only_file_downloaded_witness :
    ∃ ls3, (synchronize ⟨false, 1000, fun _ => true, fun _ => true⟩ 2 ⟨0, 0, []⟩
        (some (.dir 7 [("other", some (.file "x" 1))]))
        [("doc", .file 42 (some (md5hex "hello")) "hello"),
          ("other", .file 1 (some (md5hex "x")) "x")]).localEntry =
        some (.dir 7 ls3) ∧
      lookupName ls3 "doc" = some (some (.file "hello" 42)) :=
  remote_only_file_downloaded _ 1 _ 7 _ _ "doc" 42 (some (md5hex "hello")) "hello"
    rfl (by decide) rfl

/-- C1 counterexample: after a clean first run over a pair where the
local file `a` is newer than its remote counterpart with different
content, the second run does not resolve `a` to `Unchanged`: it resolves
`a` to `LocalNewer` again (the deliberately suppressed branch leaves the
pair unsynchronized forever). -/
theorem second_run_not_all_unchanged :
    (synchronize ⟨false, 1000, fun _ => true, fun _ => true⟩ 3 ⟨0, 0, []⟩
        (some (.dir 0 [("a", some (.file "x" 10))]))
        [("a", .file 5 (some (md5hex "y")) "y")]).err = none ∧
    Event.resolved "a" Modified.localNewer false ∈
      (synchronize ⟨false, 1000, fun _ => true, fun _ => true⟩ 3 ⟨0, 0, []⟩
        (synchronize ⟨false, 1000, fun _ => true, fun _ => true⟩ 3 ⟨0, 0, []⟩
          (some (.dir 0 [("a", some (.file "x" 10))]))
          [("a", .file 5 (some (md5hex "y")) "y")]).localEntry
        (synchronize ⟨false, 1000, fun _ => true, fun _ => true⟩ 3 ⟨0, 0, []⟩
          (some (.dir 0 [("a", some (.file "x" 10))]))
          [("a", .file 5 (some (md5hex "y")) "y")]).remote).st.events ∧
    ∀ b, Event.resolved "a" Modified.unchanged b ∉
      (synchronize ⟨false, 1000, fun _ => true, fun _ => true⟩ 3 ⟨0, 0, []⟩
        (synchronize ⟨false, 1000, fun _ => true, fun _ => true⟩ 3 ⟨0, 0, []⟩
          (some (.dir 0 [("a", some (.file "x" 10))]))
          [("a", .file 5 (some (md5hex "y")) "y")]).localEntry
        (synchronize ⟨false, 1000, fun _ => true, fun _ => true⟩ 3 ⟨0, 0, []⟩
          (some (.dir 0 [("a", some (.file "x" 10))]))
          [("a", .file 5 (some (md5hex "y")) "y")]).remote).st.events := by
  refine ⟨by decide, by decide, ?_⟩
  intro b
  cases b <;> decide

mutual
/-- State invariant established by a completed pass with successful
adapter calls: the directory pair will produce no further transfers.
Every remote name is live locally and pairwise synced, and a live
local-only name can survive only in download-only mode. -/
inductive DirSynced : Bool → LocalDir → RemoteDir → Prop where
  | mk (dOnly : Bool) (ls : LocalDir) (rs : RemoteDir)
      (hRmem : ∀ n, (lookupName rs n).isSome →
        (liveEntry (lookupName ls n)).isSome)
      (hPair : ∀ n re node, lookupName rs n = some re →
        liveEntry (lookupName ls n) = some node → EntrySynced dOnly node re)
      (hLonly : ∀ n node, lookupName rs n = none →
        liveEntry (lookupName ls n) = some node → dOnly = true) :
      DirSynced dOnly ls rs

/-- Pairwise invariant of a matched name after a completed pass: a file
pair agrees on timestamp, or the local file is newer (the suppressed
branch), or the remote is newer but content-identical (the md5
override); a local dir matched with a remote file is never
remote-newer; a remote folder matched with a newer local entry is left
alone; a remote folder newer than the matched local dir has a synced
subtree. -/
inductive EntrySynced : Bool → LocalNode → RemoteNode → Prop where
  | fileFile (dOnly : Bool) (lc : String) (lt rt : Nat) (rsum : Option String)
      (rc : String) (hov : lt < rt → rsum = some (md5hex lc)) :
      EntrySynced dOnly (.file lc lt) (.file rt rsum rc)
  | dirFile (dOnly : Bool) (dt : Nat) (dls : LocalDir) (rt : Nat)
      (rsum : Option String) (rc : String) (hge : rt ≤ dt) :
      EntrySynced dOnly (.dir dt dls) (.file rt rsum rc)
  | fileFolder (dOnly : Bool) (lc : String) (lt rt : Nat) (rch : RemoteDir) :
      EntrySynced dOnly (.file lc lt) (.folder rt rch)
  | dirFolder (dOnly : Bool) (dt : Nat) (dls : LocalDir) (rt : Nat)
      (rch : RemoteDir) (hsub : dt < rt → DirSynced dOnly dls rch) :
      EntrySynced dOnly (.dir dt dls) (.folder rt rch)
end

/-- The events a pass over a synced pair may emit: no transfers, and
every recorded decision is `Unchanged`, `LocalNewer`, or a
`RemoteNewer` on a remote folder. -/
def cleanEvents (E : List Event) : Prop :=
  ∀ e ∈ E, e.isTransfer = false ∧
    ∀ n c b, e = Event.resolved n c b →
      c = Modified.unchanged ∨ c = Modified.localNewer ∨ b = true

theorem cleanEvents_nil : cleanEvents [] := by
  intro e he
  simp at he

theorem cleanEvents_append {E1 E2 : List Event} (h1 : cleanEvents E1)
    (h2 : cleanEvents E2) : cleanEvents (E1 ++ E2) := by
  intro e he
  rcases List.mem_append.mp he with h | h
  · exact h1 e h
  · exact h2 e h

/-- The local timestamp of a live entry (`os.path.getmtime`). -/
def localMtime : LocalNode → Nat
  | .file _ t => t
  | .dir t _ => t

theorem get_local_file_timestamp_live (node : LocalNode) :
    get_local_file_timestamp (some node) = .ok (localMtime node) := by
  cases node <;> rfl

/-- Internal duplicate of the C7 observation, for use in other proofs. -/
theorem resolveCommon_none (re : RemoteNode) :
    resolveCommon none re = .ok .remoteNewer := rfl

/-- Internal duplicate of the C9 observation, for use in other proofs. -/
theorem compare_files_self (t : Nat) (readLocal : Except Err String)
    (rsum : Option String) : compare_files t readLocal t rsum = .ok .unchanged := by
  simp [compare_files]

/-- `synchronize` on a local path that exists as a file raises
immediately (or runs out of fuel), leaving everything unchanged. -/
theorem synchronize_on_file (cfg : Config) (fuel : Nat) (st : St) (c : String)
    (t : Nat) (rs : RemoteDir) :
    ∃ e, synchronize cfg fuel st (some (.file c t)) rs =
      ⟨st, some (.file c t), rs, some e⟩ := by
  cases fuel with
  | zero => exact ⟨.fuelOut, rfl⟩
  | succ fuel => exact ⟨.notADirectory, rfl⟩

/-- Resolving a pair whose remote side is a folder is pure timestamp
comparison (folders carry no checksum, so the md5 block never runs). -/
theorem resolveCommon_folder (node : LocalNode) (rt : Nat) (rch : RemoteDir) :
    resolveCommon (some node) (.folder rt rch) =
      .ok (if rt < localMtime node then .localNewer
           else if localMtime node < rt then .remoteNewer
           else .unchanged) := by
  cases node with
  | file c t =>
    rw [resolveCommon, get_local_file_timestamp_live]
    simp only [localMtime]
    rw [show compare_files t (readEntry (some (.file c t))) (RemoteNode.folder rt rch).mtime
        (RemoteNode.folder rt rch).md5 =
      .ok (if rt < t then .localNewer else if t < rt then .remoteNewer
           else .unchanged) from by
      simp [compare_files, readEntry, RemoteNode.mtime, RemoteNode.md5, optTruthy]]
  | dir t dls =>
    rw [resolveCommon, get_local_file_timestamp_live]
    simp only [localMtime]
    rw [show compare_files t (readEntry (some (.dir t dls))) (RemoteNode.folder rt rch).mtime
        (RemoteNode.folder rt rch).md5 =
      .ok (if rt < t then .localNewer else if t < rt then .remoteNewer
           else .unchanged) from by
      simp [compare_files, readEntry, RemoteNode.mtime, RemoteNode.md5, optTruthy]]

/-- `compare_files` with a successful read never raises. -/
theorem compare_files_ok_read (lt rt : Nat) (lc : String) (rsum : Option String) :
    ∃ m, compare_files lt (.ok lc) rt rsum = .ok m := by
  simp only [compare_files]
  repeat' split
  all_goals exact ⟨_, rfl⟩

/-- Resolving a live local file against a remote file is exactly
`compare_files` on their data. -/
theorem resolveCommon_file_file (lc : String) (lt rt : Nat) (rsum : Option String)
    (rc : String) :
    resolveCommon (some (.file lc lt)) (.file rt rsum rc) =
      compare_files lt (.ok lc) rt rsum := by
  rw [resolveCommon, get_local_file_timestamp_live]
  simp only [localMtime, readEntry, RemoteNode.mtime, RemoteNode.md5]
  obtain ⟨m, hm⟩ := compare_files_ok_read lt rt lc rsum
  rw [hm]

/-- Resolving a local directory against a remote file with a different
timestamp: a truthy checksum forces the md5 read of a directory, which
raises `IsADirectoryError`; otherwise the decision is pure timestamp
comparison. -/
theorem resolveCommon_dir_file (dt : Nat) (dls : LocalDir) (rt : Nat)
    (rsum : Option String) (rc : String) (hne : dt ≠ rt) :
    resolveCommon (some (.dir dt dls)) (.file rt rsum rc) =
      if optTruthy rsum then .error .isADirectory
      else .ok (if rt < dt then .localNewer else .remoteNewer) := by
  rw [resolveCommon, get_local_file_timestamp_live]
  simp only [localMtime, readEntry, RemoteNode.mtime, RemoteNode.md5]
  rcases Nat.lt_trichotomy rt dt with h | h | h
  · by_cases htr : optTruthy rsum <;>
      simp [compare_files, h, Nat.lt_asymm h, htr]
  · exact absurd h.symm hne
  · by_cases htr : optTruthy rsum <;>
      simp [compare_files, h, Nat.lt_asymm h, htr]

/-- Full case analysis of `compare_files` on a readable local file. -/
theorem compare_files_file_cases (lt rt : Nat) (lc : String) (rsum : Option String) :
    (lt = rt ∧ compare_files lt (.ok lc) rt rsum = .ok .unchanged) ∨
    (rt < lt ∧ (compare_files lt (.ok lc) rt rsum = .ok .localNewer ∨
        compare_files lt (.ok lc) rt rsum = .ok .unchanged)) ∨
    (lt < rt ∧ ((compare_files lt (.ok lc) rt rsum = .ok .remoteNewer ∧
          rsum ≠ some (md5hex lc)) ∨
        (compare_files lt (.ok lc) rt rsum = .ok .unchanged ∧
          rsum = some (md5hex lc)))) := by
  rcases Nat.lt_trichotomy lt rt with h | h | h
  · refine Or.inr (Or.inr ⟨h, ?_⟩)
    by_cases hsum : rsum = some (md5hex lc)
    · refine Or.inr ⟨?_, hsum⟩
      subst hsum
      have htr : optTruthy (some (md5hex lc)) = true := by
        simp [optTruthy, md5hex_ne_empty lc]
      simp [compare_files, h, Nat.lt_asymm h, htr]
    · refine Or.inl ⟨?_, hsum⟩
      rcases rsum with _ | s
      · simp [compare_files, h, Nat.lt_asymm h, optTruthy]
      · by_cases hs : s = ""
        · subst hs
          simp [compare_files, h, Nat.lt_asymm h, optTruthy]
        · have htr : optTruthy (some s) = true := by simp [optTruthy, hs]
          have hne2 : (some s == some (md5hex lc)) = false := by
            simp only [beq_eq_false_iff_ne, ne_eq]
            intro hh
            exact hsum (by rw [hh])
          simp [compare_files, h, Nat.lt_asymm h, htr, hne2]
  · exact Or.inl ⟨h, by subst h; exact compare_files_self lt (.ok lc) rsum⟩
  · refine Or.inr (Or.inl ⟨h, ?_⟩)
    by_cases hsum : rsum = some (md5hex lc)
    · subst hsum
      have htr : optTruthy (some (md5hex lc)) = true := by
        simp [optTruthy, md5hex_ne_empty lc]
      simp [compare_files, h, Nat.lt_asymm h, htr]
    · rcases rsum with _ | s
      · simp [compare_files, h, Nat.lt_asymm h, optTruthy]
      · by_cases hs : s = ""
        · subst hs
          simp [compare_files, h, Nat.lt_asymm h, optTruthy]
        · have htr : optTruthy (some s) = true := by simp [optTruthy, hs]
          have hne2 : (some s == some (md5hex lc)) = false := by
            simp only [beq_eq_false_iff_ne, ne_eq]
            intro hh
            exact hsum (by rw [hh])
          simp [compare_files, h, Nat.lt_asymm h, htr, hne2]

/-- One loop body on a synced directory changes nothing: same local and
remote children, no adapter calls, and only clean events appended. -/
def CleanStep (a b : Acc) : Prop :=
  b.ls = a.ls ∧ b.rs = a.rs ∧ b.st.upCalls = a.st.upCalls ∧
  b.st.downCalls = a.st.downCalls ∧
  ∃ E, b.st.events = a.st.events ++ E ∧ cleanEvents E

theorem cleanStep_refl (a : Acc) : CleanStep a a :=
  ⟨rfl, rfl, rfl, rfl, [], by simp, cleanEvents_nil⟩

theorem cleanStep_trans {a b c : Acc} (h1 : CleanStep a b) (h2 : CleanStep b c) :
    CleanStep a c := by
  obtain ⟨l1, r1, u1, d1, E1, e1, c1⟩ := h1
  obtain ⟨l2, r2, u2, d2, E2, e2, c2⟩ := h2
  exact ⟨l2.trans l1, r2.trans r1, u2.trans u1, d2.trans d1, E1 ++ E2,
    by rw [e2, e1, List.append_assoc], cleanEvents_append c1 c2⟩

theorem cleanEvents_one (e : Event) (h1 : e.isTransfer = false)
    (h2 : ∀ n c b, e = Event.resolved n c b →
      c = Modified.unchanged ∨ c = Modified.localNewer ∨ b = true) :
    cleanEvents [e] := by
  intro e2 he
  simp at he
  subst he
  exact ⟨h1, h2⟩

theorem cleanEvents_resolved (n : String) (c : Modified) (b : Bool)
    (h : c = Modified.unchanged ∨ c = Modified.localNewer ∨ b = true) :
    cleanEvents [Event.resolved n c b] := by
  refine cleanEvents_one _ rfl ?_
  intro n2 c2 b2 heq
  injection heq with e1 e2 e3
  subst e2
  subst e3
  exact h

theorem cleanEvents_visit (n : String) : cleanEvents [Event.visit n] := by
  refine cleanEvents_one _ rfl ?_
  intro n2 c2 b2 heq
  exact absurd heq (by simp)

/-- A fold whose every step is clean and state-preserving is clean. -/
theorem foldClean (step : String → Acc → Acc) (ls : LocalDir) (rs : RemoteDir)
    (L : List String)
    (hstep : ∀ n ∈ L, ∀ acc : Acc, acc.ls = ls → acc.rs = rs →
      CleanStep acc (step n acc)) :
    ∀ acc : Acc, acc.ls = ls → acc.rs = rs →
      CleanStep acc (L.foldl (fun a n => step n a) acc) := by
  induction L with
  | nil => exact fun acc _ _ => cleanStep_refl acc
  | cons n L ihL =>
    intro acc hls hrs
    rw [List.foldl_cons]
    have h1 := hstep n (List.mem_cons_self n L) acc hls hrs
    have h2 := ihL (fun m hm => hstep m (List.mem_cons_of_mem n hm)) (step n acc)
      (h1.1.trans hls) (h1.2.1.trans hrs)
    exact cleanStep_trans h1 h2

/-- On a synced directory pair there are no remote-only names. -/
theorem remoteOnly_nil_of_synced (dOnly : Bool) (ls : LocalDir) (rs : RemoteDir)
    (hsync : DirSynced dOnly ls rs) :
    ((keys rs).filter (fun k => !(keys ls).contains k)).dedup = [] := by
  cases hsync with
  | mk _ _ hRmem hPair hLonly =>
    rw [List.dedup_eq_nil, List.filter_eq_nil]
    intro a ha
    have h1 : (lookupName rs a).isSome := lookupName_isSome_of_mem_keys rs a ha
    have h2 := hRmem a h1
    have h3 : (lookupName ls a).isSome := by
      rcases hl : lookupName ls a with _ | e
      · rw [hl] at h2
        simp [liveEntry] at h2
      · rfl
    have h4 := mem_keys_of_lookupName_isSome ls a h3
    simp [h4]

/-- Resolving a matched pair with equal timestamps is `Unchanged`
regardless of the entry kinds. -/
theorem resolveCommon_live_eq (node : LocalNode) (re : RemoteNode)
    (h : localMtime node = re.mtime) :
    resolveCommon (some node) re = .ok .unchanged := by
  rw [resolveCommon, get_local_file_timestamp_live, h]
  dsimp only
  rw [compare_files_self]

/-- A `different_files` body for a local-only name on a synced directory
is a no-op (live entries only survive under download-only mode, where
uploads are suppressed; a vanished entry either no-ops or raises before
any call or event). -/
theorem syncLocalOnlyOne_synced (cfg2 : Config) (fuel : Nat)
    (ls : LocalDir) (rs : RemoteDir)
    (hsync : DirSynced cfg2.downloadOnly ls rs) (n : String)
    (hnr : lookupName rs n = none) (acc : Acc)
    (hls : acc.ls = ls) (hrs : acc.rs = rs) :
    CleanStep acc (syncLocalOnlyOne (synchronize cfg2 fuel) cfg2 n acc) := by
  cases hsync with
  | mk _ _ hRmem hPair hLonly =>
    obtain ⟨st2, ls2, rs2, err2⟩ := acc
    rcases err2 with _ | e
    · rcases hle : liveEntry (lookupName ls2 n) with _ | node
      · by_cases hd : cfg2.downloadOnly
        · rw [show syncLocalOnlyOne (synchronize cfg2 fuel) cfg2 n ⟨st2, ls2, rs2, none⟩ =
              ⟨st2, ls2, rs2, none⟩ from by
            simp [syncLocalOnlyOne, hle, upload_file, hd]]
          exact cleanStep_refl _
        · rw [show syncLocalOnlyOne (synchronize cfg2 fuel) cfg2 n ⟨st2, ls2, rs2, none⟩ =
              ⟨st2, ls2, rs2, some .fileNotFound⟩ from by
            simp [syncLocalOnlyOne, hle, upload_file, hd]]
          exact ⟨rfl, rfl, rfl, rfl, [], by simp, cleanEvents_nil⟩
      · have hd : cfg2.downloadOnly = true := by
          refine hLonly n node hnr ?_
          rw [← hls]
          exact hle
        cases node with
        | file c t =>
          rw [show syncLocalOnlyOne (synchronize cfg2 fuel) cfg2 n ⟨st2, ls2, rs2, none⟩ =
              ⟨st2, ls2, rs2, none⟩ from by
            simp [syncLocalOnlyOne, hle, upload_file, hd]]
          exact cleanStep_refl _
        | dir dmt dls =>
          rw [show syncLocalOnlyOne (synchronize cfg2 fuel) cfg2 n ⟨st2, ls2, rs2, none⟩ =
              ⟨st2, ls2, rs2, none⟩ from by
            simp [syncLocalOnlyOne, hle, upload_folder, hd]]
          exact cleanStep_refl _
    · exact cleanStep_refl _

/-- Conclusion of a pass over a synced directory pair: state unchanged,
no adapter calls, only clean events appended. -/
def CleanRun (st : St) (dmt : Nat) (ls : LocalDir) (rs : RemoteDir)
    (out : SyncOut) : Prop :=
  out.localEntry = some (.dir dmt ls) ∧ out.remote = rs ∧
  out.st.upCalls = st.upCalls ∧ out.st.downCalls = st.downCalls ∧
  ∃ E, out.st.events = st.events ++ E ∧ cleanEvents E

theorem cleanStep_emit1 (st2 : St) (ls2 : LocalDir) (rs2 : RemoteDir)
    (err2 : Option Err) (n : String) (c : Modified) (b : Bool)
    (h : c = Modified.unchanged ∨ c = Modified.localNewer ∨ b = true) :
    CleanStep ⟨st2, ls2, rs2, none⟩ ⟨St.emit st2 (.resolved n c b), ls2, rs2, err2⟩ :=
  ⟨rfl, rfl, rfl, rfl, [.resolved n c b], rfl, cleanEvents_resolved n c b h⟩

theorem cleanStep_err (st2 : St) (ls2 : LocalDir) (rs2 : RemoteDir)
    (err2 : Option Err) :
    CleanStep ⟨st2, ls2, rs2, none⟩ ⟨st2, ls2, rs2, err2⟩ :=
  ⟨rfl, rfl, rfl, rfl, [], by simp, cleanEvents_nil⟩

theorem cleanStep_visit2 (st2 : St) (ls2 : LocalDir) (rs2 : RemoteDir)
    (err2 : Option Err) (n : String) :
    CleanStep ⟨st2, ls2, rs2, none⟩
      ⟨St.emit (St.emit st2 (.resolved n .remoteNewer true)) (.visit n),
        ls2, rs2, err2⟩ :=
  ⟨rfl, rfl, rfl, rfl, [.resolved n .remoteNewer true, .visit n],
    by simp [St.emit],
    cleanEvents_append (cleanEvents_resolved _ _ _ (Or.inr (Or.inr rfl)))
      (cleanEvents_visit n)⟩

/-- A `same_files` body on a synced directory pair changes nothing and
emits only clean events. -/
theorem syncCommonOne_synced (cfg2 : Config) (fuel : Nat)
    (IH : ∀ (st : St) (dmt : Nat) (ls : LocalDir) (rs : RemoteDir),
      DirSynced cfg2.downloadOnly ls rs →
      CleanRun st dmt ls rs (synchronize cfg2 fuel st (some (.dir dmt ls)) rs))
    (ls : LocalDir) (rs : RemoteDir)
    (hsync : DirSynced cfg2.downloadOnly ls rs) (n : String) (acc : Acc)
    (hls : acc.ls = ls) (hrs : acc.rs = rs) :
    CleanStep acc (syncCommonOne (synchronize cfg2 fuel) cfg2 n acc) := by
  cases hsync with
  | mk _ _ hRmem hPair hLonly =>
    obtain ⟨st2, ls2, rs2, err2⟩ := acc
    have hls2 : ls = ls2 := hls.symm
    have hrs2 : rs = rs2 := hrs.symm
    subst hls2
    subst hrs2
    rcases err2 with _ | e
    · rcases hre : lookupName rs n with _ | re
      · rw [show syncCommonOne (synchronize cfg2 fuel) cfg2 n ⟨st2, ls, rs, none⟩ =
            ⟨st2, ls, rs, none⟩ from by simp [syncCommonOne, hre]]
        exact cleanStep_refl _
      · have hsome := hRmem n (by rw [hre]; rfl)
        rcases hle : liveEntry (lookupName ls n) with _ | node
        · rw [hle] at hsome
          simp at hsome
        · have hes := hPair n re node hre hle
          cases hes with
          | fileFile lc lt rt rsum rc hov =>
            rcases compare_files_file_cases lt rt lc rsum with
              ⟨heq, hcf⟩ | ⟨hgt, hcf⟩ | ⟨hlt, hcf⟩
            · have hres : resolveCommon (liveEntry (lookupName ls n))
                  (RemoteNode.file rt rsum rc) = .ok .unchanged := by
                rw [hle, resolveCommon_file_file]
                exact hcf
              rw [show syncCommonOne (synchronize cfg2 fuel) cfg2 n ⟨st2, ls, rs, none⟩ =
                  ⟨St.emit st2 (.resolved n .unchanged false), ls, rs, none⟩ from by
                simp [syncCommonOne, hre, hres, RemoteNode.isFolder]]
              exact cleanStep_emit1 _ _ _ _ n .unchanged false (Or.inl rfl)
            · rcases hcf with hcf | hcf
              · have hres : resolveCommon (liveEntry (lookupName ls n))
                    (RemoteNode.file rt rsum rc) = .ok .localNewer := by
                  rw [hle, resolveCommon_file_file]
                  exact hcf
                rw [show syncCommonOne (synchronize cfg2 fuel) cfg2 n ⟨st2, ls, rs, none⟩ =
                    ⟨St.emit st2 (.resolved n .localNewer false), ls, rs, none⟩ from by
                  simp [syncCommonOne, hre, hres, RemoteNode.isFolder]]
                exact cleanStep_emit1 _ _ _ _ n .localNewer false (Or.inr (Or.inl rfl))
              · have hres : resolveCommon (liveEntry (lookupName ls n))
                    (RemoteNode.file rt rsum rc) = .ok .unchanged := by
                  rw [hle, resolveCommon_file_file]
                  exact hcf
                rw [show syncCommonOne (synchronize cfg2 fuel) cfg2 n ⟨st2, ls, rs, none⟩ =
                    ⟨St.emit st2 (.resolved n .unchanged false), ls, rs, none⟩ from by
                  simp [syncCommonOne, hre, hres, RemoteNode.isFolder]]
                exact cleanStep_emit1 _ _ _ _ n .unchanged false (Or.inl rfl)
            · rcases hcf with ⟨hcf, hne⟩ | ⟨hcf, heq2⟩
              · exact absurd (hov hlt) hne
              · have hres : resolveCommon (liveEntry (lookupName ls n))
                    (RemoteNode.file rt rsum rc) = .ok .unchanged := by
                  rw [hle, resolveCommon_file_file]
                  exact hcf
                rw [show syncCommonOne (synchronize cfg2 fuel) cfg2 n ⟨st2, ls, rs, none⟩ =
                    ⟨St.emit st2 (.resolved n .unchanged false), ls, rs, none⟩ from by
                  simp [syncCommonOne, hre, hres, RemoteNode.isFolder]]
                exact cleanStep_emit1 _ _ _ _ n .unchanged false (Or.inl rfl)
          | dirFile dt dls rt rsum rc hge =>
            by_cases heq : dt = rt
            · have hres : resolveCommon (liveEntry (lookupName ls n))
                  (RemoteNode.file rt rsum rc) = .ok .unchanged := by
                rw [hle]
                exact resolveCommon_live_eq _ _ (by simp [localMtime, RemoteNode.mtime, heq])
              rw [show syncCommonOne (synchronize cfg2 fuel) cfg2 n ⟨st2, ls, rs, none⟩ =
                  ⟨St.emit st2 (.resolved n .unchanged false), ls, rs, none⟩ from by
                simp [syncCommonOne, hre, hres, RemoteNode.isFolder]]
              exact cleanStep_emit1 _ _ _ _ n .unchanged false (Or.inl rfl)
            · have hgt : rt < dt := lt_of_le_of_ne hge (fun hh => heq hh.symm)
              by_cases htr : optTruthy rsum
              · have hres : resolveCommon (liveEntry (lookupName ls n))
                    (RemoteNode.file rt rsum rc) = .error .isADirectory := by
                  rw [hle, resolveCommon_dir_file dt dls rt rsum rc heq, if_pos htr]
                rw [show syncCommonOne (synchronize cfg2 fuel) cfg2 n ⟨st2, ls, rs, none⟩ =
                    ⟨st2, ls, rs, some .isADirectory⟩ from by
                  simp [syncCommonOne, hre, hres]]
                exact cleanStep_err _ _ _ _
              · have hres : resolveCommon (liveEntry (lookupName ls n))
                    (RemoteNode.file rt rsum rc) = .ok .localNewer := by
                  rw [hle, resolveCommon_dir_file dt dls rt rsum rc heq,
                    if_neg (by simp [htr]), if_pos hgt]
                rw [show syncCommonOne (synchronize cfg2 fuel) cfg2 n ⟨st2, ls, rs, none⟩ =
                    ⟨St.emit st2 (.resolved n .localNewer false), ls, rs, none⟩ from by
                  simp [syncCommonOne, hre, hres, RemoteNode.isFolder]]
                exact cleanStep_emit1 _ _ _ _ n .localNewer false (Or.inr (Or.inl rfl))
          | fileFolder lc lt rt rch =>
            rcases Nat.lt_trichotomy rt lt with hgt | heq | hlt
            · have hres : resolveCommon (liveEntry (lookupName ls n))
                  (RemoteNode.folder rt rch) = .ok .localNewer := by
                rw [hle, resolveCommon_folder]
                simp [localMtime, hgt]
              rw [show syncCommonOne (synchronize cfg2 fuel) cfg2 n ⟨st2, ls, rs, none⟩ =
                  ⟨St.emit st2 (.resolved n .localNewer true), ls, rs, none⟩ from by
                simp [syncCommonOne, hre, hres, RemoteNode.isFolder]]
              exact cleanStep_emit1 _ _ _ _ n .localNewer true (Or.inr (Or.inl rfl))
            · have hres : resolveCommon (liveEntry (lookupName ls n))
                  (RemoteNode.folder rt rch) = .ok .unchanged := by
                rw [hle]
                exact resolveCommon_live_eq _ _ (by simp [localMtime, RemoteNode.mtime, heq])
              rw [show syncCommonOne (synchronize cfg2 fuel) cfg2 n ⟨st2, ls, rs, none⟩ =
                  ⟨St.emit st2 (.resolved n .unchanged true), ls, rs, none⟩ from by
                simp [syncCommonOne, hre, hres, RemoteNode.isFolder]]
              exact cleanStep_emit1 _ _ _ _ n .unchanged true (Or.inl rfl)
            · have hres : resolveCommon (some (.file lc lt))
                  (RemoteNode.folder rt rch) = .ok .remoteNewer := by
                rw [resolveCommon_folder]
                simp [localMtime, hlt, Nat.lt_asymm hlt]
              obtain ⟨e0, he0⟩ := synchronize_on_file cfg2 fuel
                (St.emit (St.emit st2 (.resolved n .remoteNewer true)) (.visit n)) lc lt rch
              rw [show syncCommonOne (synchronize cfg2 fuel) cfg2 n ⟨st2, ls, rs, none⟩ =
                  ⟨St.emit (St.emit st2 (.resolved n .remoteNewer true)) (.visit n),
                    setName ls n (some (.file lc lt)), setName rs n (.folder rt rch),
                    some e0⟩ from by
                simp [syncCommonOne, hre, hres, RemoteNode.isFolder, hle, he0]]
              rw [setName_eq_self ls n (some (.file lc lt)) (liveEntry_eq_some hle),
                setName_eq_self rs n (.folder rt rch) hre]
              exact cleanStep_visit2 _ _ _ _ n
          | dirFolder dt dls rt rch hsub =>
            rcases Nat.lt_trichotomy rt dt with hgt | heq | hlt
            · have hres : resolveCommon (liveEntry (lookupName ls n))
                  (RemoteNode.folder rt rch) = .ok .localNewer := by
                rw [hle, resolveCommon_folder]
                simp [localMtime, hgt]
              rw [show syncCommonOne (synchronize cfg2 fuel) cfg2 n ⟨st2, ls, rs, none⟩ =
                  ⟨St.emit st2 (.resolved n .localNewer true), ls, rs, none⟩ from by
                simp [syncCommonOne, hre, hres, RemoteNode.isFolder]]
              exact cleanStep_emit1 _ _ _ _ n .localNewer true (Or.inr (Or.inl rfl))
            · have hres : resolveCommon (liveEntry (lookupName ls n))
                  (RemoteNode.folder rt rch) = .ok .unchanged := by
                rw [hle]
                exact resolveCommon_live_eq _ _ (by simp [localMtime, RemoteNode.mtime, heq])
              rw [show syncCommonOne (synchronize cfg2 fuel) cfg2 n ⟨st2, ls, rs, none⟩ =
                  ⟨St.emit st2 (.resolved n .unchanged true), ls, rs, none⟩ from by
                simp [syncCommonOne, hre, hres, RemoteNode.isFolder]]
              exact cleanStep_emit1 _ _ _ _ n .unchanged true (Or.inl rfl)
            · have hres : resolveCommon (some (.dir dt dls))
                  (RemoteNode.folder rt rch) = .ok .remoteNewer := by
                rw [resolveCommon_folder]
                simp [localMtime, hlt, Nat.lt_asymm hlt]
              obtain ⟨hol, hor, hup, hdn, E2, hev2, hcl2⟩ :=
                IH (St.emit (St.emit st2 (.resolved n .remoteNewer true)) (.visit n))
                  dt dls rch (hsub hlt)
              rw [show syncCommonOne (synchronize cfg2 fuel) cfg2 n ⟨st2, ls, rs, none⟩ =
                  ⟨(synchronize cfg2 fuel
                      (St.emit (St.emit st2 (.resolved n .remoteNewer true)) (.visit n))
                      (some (.dir dt dls)) rch).st,
                    setName ls n (synchronize cfg2 fuel
                      (St.emit (St.emit st2 (.resolved n .remoteNewer true)) (.visit n))
                      (some (.dir dt dls)) rch).localEntry,
                    setName rs n (.folder rt (synchronize cfg2 fuel
                      (St.emit (St.emit st2 (.resolved n .remoteNewer true)) (.visit n))
                      (some (.dir dt dls)) rch).remote),
                    (synchronize cfg2 fuel
                      (St.emit (St.emit st2 (.resolved n .remoteNewer true)) (.visit n))
                      (some (.dir dt dls)) rch).err⟩ from by
                simp [syncCommonOne, hre, hres, RemoteNode.isFolder, hle]]
              rw [hol, hor]
              rw [setName_eq_self ls n (some (.dir dt dls)) (liveEntry_eq_some hle),
                setName_eq_self rs n (.folder rt rch) hre]
              refine ⟨rfl, rfl, hup, hdn,
                [.resolved n .remoteNewer true, .visit n] ++ E2, ?_, ?_⟩
              · rw [hev2]
                simp [St.emit]
              · exact cleanEvents_append
                  (cleanEvents_append
                    (cleanEvents_resolved _ _ _ (Or.inr (Or.inr rfl)))
                    (cleanEvents_visit n)) hcl2
    · exact cleanStep_refl _

/-- The loop section over a synced directory pair changes nothing and
emits only clean events. -/
theorem syncDirBody_synced (cfg2 : Config) (fuel : Nat)
    (IH : ∀ (st : St) (dmt : Nat) (ls : LocalDir) (rs : RemoteDir),
      DirSynced cfg2.downloadOnly ls rs →
      CleanRun st dmt ls rs (synchronize cfg2 fuel st (some (.dir dmt ls)) rs))
    (st : St) (ls : LocalDir) (rs : RemoteDir)
    (hsync : DirSynced cfg2.downloadOnly ls rs) :
    CleanStep ⟨st, ls, rs, none⟩ (syncDirBody (synchronize cfg2 fuel) cfg2 st ls rs) := by
  have h1 := foldClean (fun n a => syncCommonOne (synchronize cfg2 fuel) cfg2 n a) ls rs
    (((keys rs).filter (fun k => (keys ls).contains k)).dedup)
    (fun n _ acc hl hr => syncCommonOne_synced cfg2 fuel IH ls rs hsync n acc hl hr)
    ⟨st, ls, rs, none⟩ rfl rfl
  have h3 := foldClean (fun n a => syncLocalOnlyOne (synchronize cfg2 fuel) cfg2 n a) ls rs
    (((keys ls).filter (fun k => !(keys rs).contains k)).dedup)
    (fun n hn acc hl hr => syncLocalOnlyOne_synced cfg2 fuel ls rs hsync n
      (lookupName_eq_none_of_not_mem_keys rs n (by
        intro hmem
        have hf := (List.mem_filter.mp (List.mem_dedup.mp hn)).2
        rw [show ((keys rs).contains n) = true by simpa using hmem] at hf
        simp at hf)) acc hl hr)
  have hnil := remoteOnly_nil_of_synced cfg2.downloadOnly ls rs hsync
  show CleanStep (⟨st, ls, rs, none⟩ : Acc)
    ((((keys ls).filter (fun k => !(keys rs).contains k)).dedup).foldl
      (fun a n => syncLocalOnlyOne (synchronize cfg2 fuel) cfg2 n a)
      ((((keys rs).filter (fun k => !(keys ls).contains k)).dedup).foldl
        (fun a n => syncRemoteOnlyOne (synchronize cfg2 fuel) cfg2 n a)
        ((((keys rs).filter (fun k => (keys ls).contains k)).dedup).foldl
          (fun a n => syncCommonOne (synchronize cfg2 fuel) cfg2 n a)
          ⟨st, ls, rs, none⟩)))
  rw [hnil, List.foldl_nil]
  exact cleanStep_trans h1 (h3 _ (h1.1.trans rfl) (h1.2.1.trans rfl))

/-- Running `synchronize` over a synced directory pair changes nothing:
same local tree, same remote tree, no adapter calls, and only clean
events (no transfers; every decision is `Unchanged`, `LocalNewer`, or a
`RemoteNewer` on a remote folder). -/
theorem synchronize_synced (cfg2 : Config) : ∀ (fuel : Nat) (st : St) (dmt : Nat)
    (ls : LocalDir) (rs : RemoteDir), DirSynced cfg2.downloadOnly ls rs →
    CleanRun st dmt ls rs (synchronize cfg2 fuel st (some (.dir dmt ls)) rs) := by
  intro fuel
  induction fuel with
  | zero =>
    intro st dmt ls rs _
    exact ⟨rfl, rfl, rfl, rfl, [], by simp [synchronize], cleanEvents_nil⟩
  | succ fuel ih =>
    intro st dmt ls rs hsync
    obtain ⟨hl, hr, hup, hdn, E, hev, hcl⟩ := syncDirBody_synced cfg2 fuel ih st ls rs hsync
    refine ⟨?_, hr, hup, hdn, E, hev, hcl⟩
    show some (LocalNode.dir dmt (syncDirBody (synchronize cfg2 fuel) cfg2 st ls rs).ls) =
      some (LocalNode.dir dmt ls)
    rw [hl]

/-- Per-name part of the synced invariant. -/
def PairOK (dOnly : Bool) (ls : LocalDir) (rs : RemoteDir) (n : String) : Prop :=
  (∀ re, lookupName rs n = some re →
    ∃ node, liveEntry (lookupName ls n) = some node ∧ EntrySynced dOnly node re) ∧
  (∀ node, lookupName rs n = none → liveEntry (lookupName ls n) = some node →
    dOnly = true)

theorem dirSynced_of_pairOK (dOnly : Bool) (ls : LocalDir) (rs : RemoteDir)
    (h : ∀ n, PairOK dOnly ls rs n) : DirSynced dOnly ls rs := by
  refine .mk _ _ _ ?_ ?_ ?_
  · intro n hsome
    rcases hre : lookupName rs n with _ | re
    · rw [hre] at hsome
      simp at hsome
    · obtain ⟨node, hln, _⟩ := (h n).1 re hre
      rw [hln]
      rfl
  · intro n re node hre hln
    obtain ⟨node2, hln2, hes⟩ := (h n).1 re hre
    rw [hln] at hln2
    injection hln2 with hh
    rw [hh]
    exact hes
  · intro n node hre hln
    exact (h n).2 node hre hln

theorem pairOK_frame {dOnly : Bool} {ls1 rs1 ls2 rs2 : List _} {n : String}
    (hls : lookupName ls2 n = lookupName ls1 n)
    (hrs : lookupName rs2 n = lookupName rs1 n)
    (h : PairOK dOnly ls1 rs1 n) : PairOK dOnly ls2 rs2 n := by
  constructor
  · intro re hre
    obtain ⟨node, hn, hes⟩ := h.1 re (by rw [← hrs]; exact hre)
    exact ⟨node, by rw [hls]; exact hn, hes⟩
  · intro node hre hln
    refine h.2 node (by rw [← hrs]; exact hre) ?_
    rw [← hls]
    exact hln

theorem liveEntry_setName_self (ls : LocalDir) (n : String) (v : Option LocalNode) :
    liveEntry (lookupName (setName ls n v) n) = v := by
  rw [lookupName_setName_self]
  rfl

theorem download_file_dir_err (cfg : Config) (st : St) (n : String) (t : Nat)
    (dls : LocalDir) (rmt : Nat) (rc : String) :
    (download_file cfg st n (some (.dir t dls)) rmt rc).err ≠ none := by
  cases h1 : (St.downloadCall cfg st).2 <;> simp [download_file, h1]

/-- A `different_files` body for a local-only name, completing without a
propagated error under an always-succeeding create oracle, leaves the
name in the synced invariant. -/
theorem syncLocalOnlyOne_post (cfg : Config) (fuel : Nat)
    (hC : cfg.createOk = fun _ => true)
    (IH : ∀ (st : St) (l : Option LocalNode) (rs : RemoteDir),
      (synchronize cfg fuel st l rs).err = none →
      ∃ dmt ls2, (synchronize cfg fuel st l rs).localEntry = some (.dir dmt ls2) ∧
        DirSynced cfg.downloadOnly ls2 (synchronize cfg fuel st l rs).remote)
    (n : String) (st : St) (ls : LocalDir) (rs : RemoteDir)
    (hnr : lookupName rs n = none)
    (herr : (syncLocalOnlyOne (synchronize cfg fuel) cfg n ⟨st, ls, rs, none⟩).err = none) :
    PairOK cfg.downloadOnly (syncLocalOnlyOne (synchronize cfg fuel) cfg n ⟨st, ls, rs, none⟩).ls
      (syncLocalOnlyOne (synchronize cfg fuel) cfg n ⟨st, ls, rs, none⟩).rs n := by
  rcases hle : liveEntry (lookupName ls n) with _ | node
  · by_cases hd : cfg.downloadOnly
    · rw [show syncLocalOnlyOne (synchronize cfg fuel) cfg n ⟨st, ls, rs, none⟩ =
          ⟨st, ls, rs, none⟩ from by simp [syncLocalOnlyOne, hle, upload_file, hd]]
      exact ⟨fun re hre => absurd (hnr.symm.trans hre) (by simp),
        fun node _ hln => absurd (hle.symm.trans hln) (by simp)⟩
    · rw [show syncLocalOnlyOne (synchronize cfg fuel) cfg n ⟨st, ls, rs, none⟩ =
          ⟨st, ls, rs, some .fileNotFound⟩ from by
        simp [syncLocalOnlyOne, hle, upload_file, hd]] at herr
      simp at herr
  · cases node with
    | file c t =>
      by_cases hd : cfg.downloadOnly
      · rw [show syncLocalOnlyOne (synchronize cfg fuel) cfg n ⟨st, ls, rs, none⟩ =
            ⟨st, ls, rs, none⟩ from by simp [syncLocalOnlyOne, hle, upload_file, hd]]
        exact ⟨fun re hre => absurd (hnr.symm.trans hre) (by simp),
          fun node _ _ => hd⟩
      · have hcok : (St.createCall cfg st).2 = true := by
          rw [show (St.createCall cfg st).2 = cfg.createOk st.upCalls from rfl, hC]
        rw [show syncLocalOnlyOne (synchronize cfg fuel) cfg n ⟨st, ls, rs, none⟩ =
            ⟨St.emit (St.createCall cfg st).1 (.createFile n), ls,
              setName rs n (.file t (some (md5hex c)) c), none⟩ from by
          simp [syncLocalOnlyOne, hle, upload_file, hd, hcok]]
        refine ⟨?_, ?_⟩
        · intro re hre
          rw [show (Acc.mk (St.emit (St.createCall cfg st).1 (.createFile n)) ls
              (setName rs n (.file t (some (md5hex c)) c)) none).rs =
            setName rs n (.file t (some (md5hex c)) c) from rfl,
            lookupName_setName_self] at hre
          injection hre with hre2
          refine ⟨.file c t, hle, ?_⟩
          rw [← hre2]
          exact .fileFile _ c t t (some (md5hex c)) c (fun h => absurd h (Nat.lt_irrefl t))
        · intro node hren hln
          rw [show (Acc.mk (St.emit (St.createCall cfg st).1 (.createFile n)) ls
              (setName rs n (.file t (some (md5hex c)) c)) none).rs =
            setName rs n (.file t (some (md5hex c)) c) from rfl,
            lookupName_setName_self] at hren
          exact absurd hren (by simp)
    | dir dmt dls =>
      by_cases hd : cfg.downloadOnly
      · rw [show syncLocalOnlyOne (synchronize cfg fuel) cfg n ⟨st, ls, rs, none⟩ =
            ⟨st, ls, rs, none⟩ from by simp [syncLocalOnlyOne, hle, upload_folder, hd]]
        exact ⟨fun re hre => absurd (hnr.symm.trans hre) (by simp),
          fun node _ _ => hd⟩
      · have hcok : (St.createCall cfg st).2 = true := by
          rw [show (St.createCall cfg st).2 = cfg.createOk st.upCalls from rfl, hC]
        rw [show syncLocalOnlyOne (synchronize cfg fuel) cfg n ⟨st, ls, rs, none⟩ =
            ⟨(synchronize cfg fuel
                (St.emit (St.emit (St.createCall cfg st).1 (.createFolder n)) (.visit n))
                (some (.dir dmt dls)) []).st,
              setName ls n (synchronize cfg fuel
                (St.emit (St.emit (St.createCall cfg st).1 (.createFolder n)) (.visit n))
                (some (.dir dmt dls)) []).localEntry,
              setName rs n (.folder cfg.now (synchronize cfg fuel
                (St.emit (St.emit (St.createCall cfg st).1 (.createFolder n)) (.visit n))
                (some (.dir dmt dls)) []).remote),
              (synchronize cfg fuel
                (St.emit (St.emit (St.createCall cfg st).1 (.createFolder n)) (.visit n))
                (some (.dir dmt dls)) []).err⟩ from by
          simp [syncLocalOnlyOne, hle, upload_folder, hd, hcok]] at herr ⊢
        obtain ⟨dmt2, ls2, hol, hds⟩ := IH
          (St.emit (St.emit (St.createCall cfg st).1 (.createFolder n)) (.visit n))
          (some (.dir dmt dls)) [] herr
        refine ⟨?_, ?_⟩
        · intro re hre
          dsimp only at hre
          rw [lookupName_setName_self] at hre
          injection hre with hre2
          refine ⟨.dir dmt2 ls2, ?_, ?_⟩
          · dsimp only
            rw [liveEntry_setName_self, hol]
          · rw [← hre2]
            exact .dirFolder _ dmt2 ls2 cfg.now _ (fun _ => hds)
        · intro node hren hln
          dsimp only at hren
          rw [lookupName_setName_self] at hren
          exact absurd hren (by simp)

theorem pairOK_of_entry {dOnly : Bool} {ls : LocalDir} {rs : RemoteDir} {n : String}
    {node : LocalNode} {re : RemoteNode}
    (hle : liveEntry (lookupName ls n) = some node)
    (hre : lookupName rs n = some re)
    (hes : EntrySynced dOnly node re) : PairOK dOnly ls rs n := by
  refine ⟨?_, ?_⟩
  · intro re2 hre2
    rw [hre] at hre2
    injection hre2 with h3
    exact ⟨node, hle, h3 ▸ hes⟩
  · intro node2 hren _
    rw [hre] at hren
    exact absurd hren (by simp)

/-- A `same_files` body, completing without a propagated error, leaves
the name in the synced invariant. -/
theorem syncCommonOne_post (cfg : Config) (fuel : Nat)
    (IH : ∀ (st : St) (l : Option LocalNode) (rs : RemoteDir),
      (synchronize cfg fuel st l rs).err = none →
      ∃ dmt ls2, (synchronize cfg fuel st l rs).localEntry = some (.dir dmt ls2) ∧
        DirSynced cfg.downloadOnly ls2 (synchronize cfg fuel st l rs).remote)
    (n : String) (st : St) (ls : LocalDir) (rs : RemoteDir) (re : RemoteNode)
    (hre : lookupName rs n = some re)
    (herr : (syncCommonOne (synchronize cfg fuel) cfg n ⟨st, ls, rs, none⟩).err = none) :
    PairOK cfg.downloadOnly
      (syncCommonOne (synchronize cfg fuel) cfg n ⟨st, ls, rs, none⟩).ls
      (syncCommonOne (synchronize cfg fuel) cfg n ⟨st, ls, rs, none⟩).rs n := by
  rcases hle : liveEntry (lookupName ls n) with _ | node
  · cases re with
    | file rmt rsum rc =>
      rw [show syncCommonOne (synchronize cfg fuel) cfg n ⟨st, ls, rs, none⟩ =
          ⟨(download_file cfg (St.emit st (.resolved n .remoteNewer false)) n none rmt rc).st,
            setName ls n (download_file cfg
              (St.emit st (.resolved n .remoteNewer false)) n none rmt rc).entry, rs,
            (download_file cfg
              (St.emit st (.resolved n .remoteNewer false)) n none rmt rc).err⟩ from by
        simp [syncCommonOne, hre, hle, resolveCommon_none, RemoteNode.isFolder]] at herr ⊢
      have hent := download_file_ok_entry cfg
        (St.emit st (.resolved n .remoteNewer false)) n none rmt rc herr
      refine pairOK_of_entry ?_ ?_
        (.fileFile _ rc rmt rmt rsum rc (fun h => absurd h (Nat.lt_irrefl rmt)))
      · dsimp only
        rw [liveEntry_setName_self, hent]
      · exact hre
    | folder rmt rch =>
      rw [show syncCommonOne (synchronize cfg fuel) cfg n ⟨st, ls, rs, none⟩ =
          ⟨(synchronize cfg fuel
              (St.emit (St.emit st (.resolved n .remoteNewer true)) (.visit n)) none rch).st,
            setName ls n (synchronize cfg fuel
              (St.emit (St.emit st (.resolved n .remoteNewer true)) (.visit n))
              none rch).localEntry,
            setName rs n (.folder rmt (synchronize cfg fuel
              (St.emit (St.emit st (.resolved n .remoteNewer true)) (.visit n))
              none rch).remote),
            (synchronize cfg fuel
              (St.emit (St.emit st (.resolved n .remoteNewer true)) (.visit n))
              none rch).err⟩ from by
        simp [syncCommonOne, hre, hle, resolveCommon_none, RemoteNode.isFolder]] at herr ⊢
      obtain ⟨dmt2, ls2, hol, hds⟩ := IH
        (St.emit (St.emit st (.resolved n .remoteNewer true)) (.visit n)) none rch herr
      refine pairOK_of_entry ?_ ?_ (.dirFolder _ dmt2 ls2 rmt _ (fun _ => hds))
      · dsimp only
        rw [liveEntry_setName_self, hol]
      · dsimp only
        rw [lookupName_setName_self]
  · cases node with
    | file lc lt =>
      cases re with
      | file rt rsum rc =>
        rcases compare_files_file_cases lt rt lc rsum with
          ⟨heq, hcf⟩ | ⟨hgt, hcf⟩ | ⟨hlt, hcf⟩
        · have hres : resolveCommon (liveEntry (lookupName ls n))
              (RemoteNode.file rt rsum rc) = .ok .unchanged := by
            rw [hle, resolveCommon_file_file]
            exact hcf
          rw [show syncCommonOne (synchronize cfg fuel) cfg n ⟨st, ls, rs, none⟩ =
              ⟨St.emit st (.resolved n .unchanged false), ls, rs, none⟩ from by
            simp [syncCommonOne, hre, hres, RemoteNode.isFolder]]
          exact pairOK_of_entry hle hre
            (.fileFile _ lc lt rt rsum rc (fun h => absurd (heq ▸ h) (Nat.lt_irrefl rt)))
        · have hov : lt < rt → rsum = some (md5hex lc) :=
            fun h => absurd h (Nat.lt_asymm hgt)
          rcases hcf with hcf | hcf
          · have hres : resolveCommon (liveEntry (lookupName ls n))
                (RemoteNode.file rt rsum rc) = .ok .localNewer := by
              rw [hle, resolveCommon_file_file]
              exact hcf
            rw [show syncCommonOne (synchronize cfg fuel) cfg n ⟨st, ls, rs, none⟩ =
                ⟨St.emit st (.resolved n .localNewer false), ls, rs, none⟩ from by
              simp [syncCommonOne, hre, hres, RemoteNode.isFolder]]
            exact pairOK_of_entry hle hre (.fileFile _ lc lt rt rsum rc hov)
          · have hres : resolveCommon (liveEntry (lookupName ls n))
                (RemoteNode.file rt rsum rc) = .ok .unchanged := by
              rw [hle, resolveCommon_file_file]
              exact hcf
            rw [show syncCommonOne (synchronize cfg fuel) cfg n ⟨st, ls, rs, none⟩ =
                ⟨St.emit st (.resolved n .unchanged false), ls, rs, none⟩ from by
              simp [syncCommonOne, hre, hres, RemoteNode.isFolder]]
            exact pairOK_of_entry hle hre (.fileFile _ lc lt rt rsum rc hov)
        · rcases hcf with ⟨hcf, hne⟩ | ⟨hcf, heq2⟩
          · have hres : resolveCommon (some (.file lc lt))
                (RemoteNode.file rt rsum rc) = .ok .remoteNewer := by
              rw [resolveCommon_file_file]
              exact hcf
            rw [show syncCommonOne (synchronize cfg fuel) cfg n ⟨st, ls, rs, none⟩ =
                ⟨(download_file cfg (St.emit st (.resolved n .remoteNewer false)) n
                    (some (.file lc lt)) rt rc).st,
                  setName ls n (download_file cfg
                    (St.emit st (.resolved n .remoteNewer false)) n
                    (some (.file lc lt)) rt rc).entry, rs,
                  (download_file cfg (St.emit st (.resolved n .remoteNewer false)) n
                    (some (.file lc lt)) rt rc).err⟩ from by
              simp [syncCommonOne, hre, hres, RemoteNode.isFolder, hle]] at herr ⊢
            have hent := download_file_ok_entry cfg
              (St.emit st (.resolved n .remoteNewer false)) n
              (some (.file lc lt)) rt rc herr
            refine pairOK_of_entry ?_ ?_
              (.fileFile _ rc rt rt rsum rc (fun h => absurd h (Nat.lt_irrefl rt)))
            · dsimp only
              rw [liveEntry_setName_self, hent]
            · exact hre
          · have hres : resolveCommon (liveEntry (lookupName ls n))
                (RemoteNode.file rt rsum rc) = .ok .unchanged := by
              rw [hle, resolveCommon_file_file]
              exact hcf
            rw [show syncCommonOne (synchronize cfg fuel) cfg n ⟨st, ls, rs, none⟩ =
                ⟨St.emit st (.resolved n .unchanged false), ls, rs, none⟩ from by
              simp [syncCommonOne, hre, hres, RemoteNode.isFolder]]
            exact pairOK_of_entry hle hre
              (.fileFile _ lc lt rt rsum rc (fun _ => heq2))
      | folder rt rch =>
        rcases Nat.lt_trichotomy rt lt with hgt | heq | hlt
        · have hres : resolveCommon (liveEntry (lookupName ls n))
              (RemoteNode.folder rt rch) = .ok .localNewer := by
            rw [hle, resolveCommon_folder]
            simp [localMtime, hgt]
          rw [show syncCommonOne (synchronize cfg fuel) cfg n ⟨st, ls, rs, none⟩ =
              ⟨St.emit st (.resolved n .localNewer true), ls, rs, none⟩ from by
            simp [syncCommonOne, hre, hres, RemoteNode.isFolder]]
          exact pairOK_of_entry hle hre (.fileFolder _ lc lt rt rch)
        · have hres : resolveCommon (liveEntry (lookupName ls n))
              (RemoteNode.folder rt rch) = .ok .unchanged := by
            rw [hle]
            exact resolveCommon_live_eq _ _ (by simp [localMtime, RemoteNode.mtime, heq])
          rw [show syncCommonOne (synchronize cfg fuel) cfg n ⟨st, ls, rs, none⟩ =
              ⟨St.emit st (.resolved n .unchanged true), ls, rs, none⟩ from by
            simp [syncCommonOne, hre, hres, RemoteNode.isFolder]]
          exact pairOK_of_entry hle hre (.fileFolder _ lc lt rt rch)
        · have hres : resolveCommon (some (.file lc lt))
              (RemoteNode.folder rt rch) = .ok .remoteNewer := by
            rw [resolveCommon_folder]
            simp [localMtime, hlt, Nat.lt_asymm hlt]
          obtain ⟨e0, he0⟩ := synchronize_on_file cfg fuel
            (St.emit (St.emit st (.resolved n .remoteNewer true)) (.visit n)) lc lt rch
          rw [show syncCommonOne (synchronize cfg fuel) cfg n ⟨st, ls, rs, none⟩ =
              ⟨St.emit (St.emit st (.resolved n .remoteNewer true)) (.visit n),
                setName ls n (some (.file lc lt)), setName rs n (.folder rt rch),
                some e0⟩ from by
            simp [syncCommonOne, hre, hres, RemoteNode.isFolder, hle, he0]] at herr
          simp at herr
    | dir dt dls =>
      cases re with
      | file rt rsum rc =>
        by_cases heq : dt = rt
        · have hres : resolveCommon (liveEntry (lookupName ls n))
              (RemoteNode.file rt rsum rc) = .ok .unchanged := by
            rw [hle]
            exact resolveCommon_live_eq _ _ (by simp [localMtime, RemoteNode.mtime, heq])
          rw [show syncCommonOne (synchronize cfg fuel) cfg n ⟨st, ls, rs, none⟩ =
              ⟨St.emit st (.resolved n .unchanged false), ls, rs, none⟩ from by
            simp [syncCommonOne, hre, hres, RemoteNode.isFolder]]
          exact pairOK_of_entry hle hre
            (.dirFile _ dt dls rt rsum rc (Nat.le_of_eq heq.symm))
        · by_cases htr : optTruthy rsum
          · have hres : resolveCommon (liveEntry (lookupName ls n))
                (RemoteNode.file rt rsum rc) = .error .isADirectory := by
              rw [hle, resolveCommon_dir_file dt dls rt rsum rc heq, if_pos htr]
            rw [show syncCommonOne (synchronize cfg fuel) cfg n ⟨st, ls, rs, none⟩ =
                ⟨st, ls, rs, some .isADirectory⟩ from by
              simp [syncCommonOne, hre, hres]] at herr
            simp at herr
          · rcases Nat.lt_trichotomy rt dt with hgt | heqq | hlt
            · have hres : resolveCommon (liveEntry (lookupName ls n))
                  (RemoteNode.file rt rsum rc) = .ok .localNewer := by
                rw [hle, resolveCommon_dir_file dt dls rt rsum rc heq,
                  if_neg (by simp [htr]), if_pos hgt]
              rw [show syncCommonOne (synchronize cfg fuel) cfg n ⟨st, ls, rs, none⟩ =
                  ⟨St.emit st (.resolved n .localNewer false), ls, rs, none⟩ from by
                simp [syncCommonOne, hre, hres, RemoteNode.isFolder]]
              exact pairOK_of_entry hle hre
                (.dirFile _ dt dls rt rsum rc (Nat.le_of_lt hgt))
            · exact absurd heqq.symm heq
            · have hres : resolveCommon (some (.dir dt dls))
                  (RemoteNode.file rt rsum rc) = .ok .remoteNewer := by
                rw [resolveCommon_dir_file dt dls rt rsum rc heq,
                  if_neg (by simp [htr]), if_neg (Nat.lt_asymm hlt)]
              rw [show syncCommonOne (synchronize cfg fuel) cfg n ⟨st, ls, rs, none⟩ =
                  ⟨(download_file cfg (St.emit st (.resolved n .remoteNewer false)) n
                      (some (.dir dt dls)) rt rc).st,
                    setName ls n (download_file cfg
                      (St.emit st (.resolved n .remoteNewer false)) n
                      (some (.dir dt dls)) rt rc).entry, rs,
                    (download_file cfg (St.emit st (.resolved n .remoteNewer false)) n
                      (some (.dir dt dls)) rt rc).err⟩ from by
                simp [syncCommonOne, hre, hres, RemoteNode.isFolder, hle]] at herr
              exact absurd herr (download_file_dir_err cfg
                (St.emit st (.resolved n .remoteNewer false)) n dt dls rt rc)
      | folder rt rch =>
        rcases Nat.lt_trichotomy rt dt with hgt | heq | hlt
        · have hres : resolveCommon (liveEntry (lookupName ls n))
              (RemoteNode.folder rt rch) = .ok .localNewer := by
            rw [hle, resolveCommon_folder]
            simp [localMtime, hgt]
          rw [show syncCommonOne (synchronize cfg fuel) cfg n ⟨st, ls, rs, none⟩ =
              ⟨St.emit st (.resolved n .localNewer true), ls, rs, none⟩ from by
            simp [syncCommonOne, hre, hres, RemoteNode.isFolder]]
          exact pairOK_of_entry hle hre
            (.dirFolder _ dt dls rt rch (fun h => absurd h (Nat.lt_asymm hgt)))
        · have hres : resolveCommon (liveEntry (lookupName ls n))
              (RemoteNode.folder rt rch) = .ok .unchanged := by
            rw [hle]
            exact resolveCommon_live_eq _ _ (by simp [localMtime, RemoteNode.mtime, heq])
          rw [show syncCommonOne (synchronize cfg fuel) cfg n ⟨st, ls, rs, none⟩ =
              ⟨St.emit st (.resolved n .unchanged true), ls, rs, none⟩ from by
            simp [syncCommonOne, hre, hres, RemoteNode.isFolder]]
          exact pairOK_of_entry hle hre
            (.dirFolder _ dt dls rt rch (fun h => absurd (heq ▸ h) (Nat.lt_irrefl dt)))
        · have hres : resolveCommon (some (.dir dt dls))
              (RemoteNode.folder rt rch) = .ok .remoteNewer := by
            rw [resolveCommon_folder]
            simp [localMtime, hlt, Nat.lt_asymm hlt]
          rw [show syncCommonOne (synchronize cfg fuel) cfg n ⟨st, ls, rs, none⟩ =
              ⟨(synchronize cfg fuel
                  (St.emit (St.emit st (.resolved n .remoteNewer true)) (.visit n))
                  (some (.dir dt dls)) rch).st,
                setName ls n (synchronize cfg fuel
                  (St.emit (St.emit st (.resolved n .remoteNewer true)) (.visit n))
                  (some (.dir dt dls)) rch).localEntry,
                setName rs n (.folder rt (synchronize cfg fuel
                  (St.emit (St.emit st (.resolved n .remoteNewer true)) (.visit n))
                  (some (.dir dt dls)) rch).remote),
                (synchronize cfg fuel
                  (St.emit (St.emit st (.resolved n .remoteNewer true)) (.visit n))
                  (some (.dir dt dls)) rch).err⟩ from by
            simp [syncCommonOne, hre, hres, RemoteNode.isFolder, hle]] at herr ⊢
          obtain ⟨dmt2, ls2, hol, hds⟩ := IH
            (St.emit (St.emit st (.resolved n .remoteNewer true)) (.visit n))
            (some (.dir dt dls)) rch herr
          refine pairOK_of_entry ?_ ?_ (.dirFolder _ dmt2 ls2 rt _ (fun _ => hds))
          · dsimp only
            rw [liveEntry_setName_self, hol]
          · dsimp only
            rw [lookupName_setName_self]

/-- A `different_files` body for a remote-only name, completing without
a propagated error, leaves the name in the synced invariant. -/
theorem syncRemoteOnlyOne_post (cfg : Config) (fuel : Nat)
    (IH : ∀ (st : St) (l : Option LocalNode) (rs : RemoteDir),
      (synchronize cfg fuel st l rs).err = none →
      ∃ dmt ls2, (synchronize cfg fuel st l rs).localEntry = some (.dir dmt ls2) ∧
        DirSynced cfg.downloadOnly ls2 (synchronize cfg fuel st l rs).remote)
    (n : String) (st : St) (ls : LocalDir) (rs : RemoteDir) (re : RemoteNode)
    (hre : lookupName rs n = some re)
    (herr : (syncRemoteOnlyOne (synchronize cfg fuel) cfg n ⟨st, ls, rs, none⟩).err = none) :
    PairOK cfg.downloadOnly
      (syncRemoteOnlyOne (synchronize cfg fuel) cfg n ⟨st, ls, rs, none⟩).ls
      (syncRemoteOnlyOne (synchronize cfg fuel) cfg n ⟨st, ls, rs, none⟩).rs n := by
  cases re with
  | file rmt rsum rc =>
    rw [show syncRemoteOnlyOne (synchronize cfg fuel) cfg n ⟨st, ls, rs, none⟩ =
        ⟨(download_file cfg st n none rmt rc).st,
          setName ls n (download_file cfg st n none rmt rc).entry, rs,
          (download_file cfg st n none rmt rc).err⟩ from by
      simp [syncRemoteOnlyOne, hre]] at herr ⊢
    have hent := download_file_ok_entry cfg st n none rmt rc herr
    refine ⟨?_, ?_⟩
    · intro re2 hre2
      dsimp only at hre2
      rw [hre] at hre2
      injection hre2 with hre3
      refine ⟨.file rc rmt, ?_, ?_⟩
      · dsimp only
        rw [liveEntry_setName_self, hent]
      · rw [← hre3]
        exact .fileFile _ rc rmt rmt rsum rc (fun h => absurd h (Nat.lt_irrefl rmt))
    · intro node hren _
      dsimp only at hren
      rw [hre] at hren
      exact absurd hren (by simp)
  | folder rmt rch =>
    rw [show syncRemoteOnlyOne (synchronize cfg fuel) cfg n ⟨st, ls, rs, none⟩ =
        ⟨(synchronize cfg fuel (St.emit st (.visit n)) none rch).st,
          setName ls n (synchronize cfg fuel (St.emit st (.visit n)) none rch).localEntry,
          setName rs n (.folder rmt
            (synchronize cfg fuel (St.emit st (.visit n)) none rch).remote),
          (synchronize cfg fuel (St.emit st (.visit n)) none rch).err⟩ from by
      simp [syncRemoteOnlyOne, hre]] at herr ⊢
    obtain ⟨dmt2, ls2, hol, hds⟩ := IH (St.emit st (.visit n)) none rch herr
    refine ⟨?_, ?_⟩
    · intro re2 hre2
      dsimp only at hre2
      rw [lookupName_setName_self] at hre2
      injection hre2 with hre3
      refine ⟨.dir dmt2 ls2, ?_, ?_⟩
      · dsimp only
        rw [liveEntry_setName_self, hol]
      · rw [← hre3]
        exact .dirFolder _ dmt2 ls2 rmt _ (fun _ => hds)
    · intro node hren _
      dsimp only at hren
      rw [lookupName_setName_self] at hren
      exact absurd hren (by simp)

/-- After the `same_files` loop completes without a propagated error,
every member of the iterated name list is in the synced invariant. -/
theorem commonFold_post (cfg : Config) (fuel : Nat)
    (IH : ∀ (st : St) (l : Option LocalNode) (rs : RemoteDir),
      (synchronize cfg fuel st l rs).err = none →
      ∃ dmt ls2, (synchronize cfg fuel st l rs).localEntry = some (.dir dmt ls2) ∧
        DirSynced cfg.downloadOnly ls2 (synchronize cfg fuel st l rs).remote)
    (n : String) :
    ∀ (L : List String), L.Nodup → n ∈ L →
      ∀ (st : St) (ls : LocalDir) (rs : RemoteDir),
      (lookupName rs n).isSome →
      (L.foldl (fun a k => syncCommonOne (synchronize cfg fuel) cfg k a)
        ⟨st, ls, rs, none⟩).err = none →
      PairOK cfg.downloadOnly
        (L.foldl (fun a k => syncCommonOne (synchronize cfg fuel) cfg k a)
          ⟨st, ls, rs, none⟩).ls
        (L.foldl (fun a k => syncCommonOne (synchronize cfg fuel) cfg k a)
          ⟨st, ls, rs, none⟩).rs n := by
  intro L
  induction L with
  | nil =>
    intro _ hn
    simp at hn
  | cons k L ihL =>
    intro hnd hn st ls rs hsome herr
    rw [List.nodup_cons] at hnd
    rw [List.foldl_cons] at herr ⊢
    by_cases hk : k = n
    · subst hk
      obtain ⟨re, hre⟩ := Option.isSome_iff_exists.mp hsome
      rcases hacc : syncCommonOne (synchronize cfg fuel) cfg k ⟨st, ls, rs, none⟩ with
        ⟨st2, ls2, rs2, err2⟩
      rw [hacc] at herr
      rcases err2 with _ | e2
      · have hstep := syncCommonOne_post cfg fuel IH k st ls rs re hre (by rw [hacc])
        rw [hacc] at hstep
        have hf := commonFold_frame (synchronize cfg fuel) cfg L
          ⟨st2, ls2, rs2, none⟩ k hnd.1
        exact pairOK_frame hf.1 hf.2 hstep
      · rw [commonFold_errSome] at herr
        simp at herr
    · have hn2 : n ∈ L := by
        rcases List.mem_cons.mp hn with h | h
        · exact absurd h.symm hk
        · exact h
      have hfr := syncCommonOne_frame (synchronize cfg fuel) cfg k st ls rs none n
        (fun hh => hk hh.symm)
      rcases hacc : syncCommonOne (synchronize cfg fuel) cfg k ⟨st, ls, rs, none⟩ with
        ⟨st2, ls2, rs2, err2⟩
      rw [hacc] at hfr herr
      rcases err2 with _ | e2
      · exact ihL hnd.2 hn2 st2 ls2 rs2 (by rw [hfr.2]; exact hsome) herr
      · rw [commonFold_errSome] at herr
        simp at herr

/-- After the remote-only loop completes without a propagated error,
every member of the iterated name list is in the synced invariant. -/
theorem remoteOnlyFold_post (cfg : Config) (fuel : Nat)
    (IH : ∀ (st : St) (l : Option LocalNode) (rs : RemoteDir),
      (synchronize cfg fuel st l rs).err = none →
      ∃ dmt ls2, (synchronize cfg fuel st l rs).localEntry = some (.dir dmt ls2) ∧
        DirSynced cfg.downloadOnly ls2 (synchronize cfg fuel st l rs).remote)
    (n : String) :
    ∀ (L : List String), L.Nodup → n ∈ L →
      ∀ (st : St) (ls : LocalDir) (rs : RemoteDir),
      (lookupName rs n).isSome →
      (L.foldl (fun a k => syncRemoteOnlyOne (synchronize cfg fuel) cfg k a)
        ⟨st, ls, rs, none⟩).err = none →
      PairOK cfg.downloadOnly
        (L.foldl (fun a k => syncRemoteOnlyOne (synchronize cfg fuel) cfg k a)
          ⟨st, ls, rs, none⟩).ls
        (L.foldl (fun a k => syncRemoteOnlyOne (synchronize cfg fuel) cfg k a)
          ⟨st, ls, rs, none⟩).rs n := by
  intro L
  induction L with
  | nil =>
    intro _ hn
    simp at hn
  | cons k L ihL =>
    intro hnd hn st ls rs hsome herr
    rw [List.nodup_cons] at hnd
    rw [List.foldl_cons] at herr ⊢
    by_cases hk : k = n
    · subst hk
      obtain ⟨re, hre⟩ := Option.isSome_iff_exists.mp hsome
      rcases hacc : syncRemoteOnlyOne (synchronize cfg fuel) cfg k ⟨st, ls, rs, none⟩ with
        ⟨st2, ls2, rs2, err2⟩
      rw [hacc] at herr
      rcases err2 with _ | e2
      · have hstep := syncRemoteOnlyOne_post cfg fuel IH k st ls rs re hre (by rw [hacc])
        rw [hacc] at hstep
        have hf := remoteOnlyFold_frame (synchronize cfg fuel) cfg L
          ⟨st2, ls2, rs2, none⟩ k hnd.1
        exact pairOK_frame hf.1 hf.2 hstep
      · rw [remoteOnlyFold_errSome] at herr
        simp at herr
    · have hn2 : n ∈ L := by
        rcases List.mem_cons.mp hn with h | h
        · exact absurd h.symm hk
        · exact h
      have hfr := syncRemoteOnlyOne_frame (synchronize cfg fuel) cfg k st ls rs none n
        (fun hh => hk hh.symm)
      rcases hacc : syncRemoteOnlyOne (synchronize cfg fuel) cfg k ⟨st, ls, rs, none⟩ with
        ⟨st2, ls2, rs2, err2⟩
      rw [hacc] at hfr herr
      rcases err2 with _ | e2
      · exact ihL hnd.2 hn2 st2 ls2 rs2 (by rw [hfr.2]; exact hsome) herr
      · rw [remoteOnlyFold_errSome] at herr
        simp at herr

/-- After the local-only loop completes without a propagated error,
under an always-succeeding create oracle, every member of the iterated
name list is in the synced invariant. -/
theorem localOnlyFold_post (cfg : Config) (fuel : Nat)
    (hC : cfg.createOk = fun _ => true)
    (IH : ∀ (st : St) (l : Option LocalNode) (rs : RemoteDir),
      (synchronize cfg fuel st l rs).err = none →
      ∃ dmt ls2, (synchronize cfg fuel st l rs).localEntry = some (.dir dmt ls2) ∧
        DirSynced cfg.downloadOnly ls2 (synchronize cfg fuel st l rs).remote)
    (n : String) :
    ∀ (L : List String), L.Nodup → n ∈ L →
      ∀ (st : St) (ls : LocalDir) (rs : RemoteDir),
      lookupName rs n = none →
      (L.foldl (fun a k => syncLocalOnlyOne (synchronize cfg fuel) cfg k a)
        ⟨st, ls, rs, none⟩).err = none →
      PairOK cfg.downloadOnly
        (L.foldl (fun a k => syncLocalOnlyOne (synchronize cfg fuel) cfg k a)
          ⟨st, ls, rs, none⟩).ls
        (L.foldl (fun a k => syncLocalOnlyOne (synchronize cfg fuel) cfg k a)
          ⟨st, ls, rs, none⟩).rs n := by
  intro L
  induction L with
  | nil =>
    intro _ hn
    simp at hn
  | cons k L ihL =>
    intro hnd hn st ls rs hnone herr
    rw [List.nodup_cons] at hnd
    rw [List.foldl_cons] at herr ⊢
    by_cases hk : k = n
    · subst hk
      rcases hacc : syncLocalOnlyOne (synchronize cfg fuel) cfg k ⟨st, ls, rs, none⟩ with
        ⟨st2, ls2, rs2, err2⟩
      rw [hacc] at herr
      rcases err2 with _ | e2
      · have hstep := syncLocalOnlyOne_post cfg fuel hC IH k st ls rs hnone (by rw [hacc])
        rw [hacc] at hstep
        have hf := localOnlyFold_frame (synchronize cfg fuel) cfg L
          ⟨st2, ls2, rs2, none⟩ k hnd.1
        exact pairOK_frame hf.1 hf.2 hstep
      · rw [localOnlyFold_errSome] at herr
        simp at herr
    · have hn2 : n ∈ L := by
        rcases List.mem_cons.mp hn with h | h
        · exact absurd h.symm hk
        · exact h
      have hfr := syncLocalOnlyOne_frame (synchronize cfg fuel) cfg k st ls rs none n
        (fun hh => hk hh.symm)
      rcases hacc : syncLocalOnlyOne (synchronize cfg fuel) cfg k ⟨st, ls, rs, none⟩ with
        ⟨st2, ls2, rs2, err2⟩
      rw [hacc] at hfr herr
      rcases err2 with _ | e2
      · exact ihL hnd.2 hn2 st2 ls2 rs2 (by rw [hfr.2]; exact hnone) herr
      · rw [localOnlyFold_errSome] at herr
        simp at herr

/-- The loop section of a visit that completes without a propagated
error, under an always-succeeding create oracle, leaves the directory
pair in the synced invariant. -/
theorem syncDirBody_establishes (cfg : Config) (fuel : Nat)
    (hC : cfg.createOk = fun _ => true)
    (IH : ∀ (st : St) (l : Option LocalNode) (rs : RemoteDir),
      (synchronize cfg fuel st l rs).err = none →
      ∃ dmt ls2, (synchronize cfg fuel st l rs).localEntry = some (.dir dmt ls2) ∧
        DirSynced cfg.downloadOnly ls2 (synchronize cfg fuel st l rs).remote)
    (st : St) (ls0 : LocalDir) (rs : RemoteDir)
    (herr : (syncDirBody (synchronize cfg fuel) cfg st ls0 rs).err = none) :
    DirSynced cfg.downloadOnly (syncDirBody (synchronize cfg fuel) cfg st ls0 rs).ls
      (syncDirBody (synchronize cfg fuel) cfg st ls0 rs).rs := by
  have herrB : ((((keys ls0).filter (fun k => !(keys rs).contains k)).dedup).foldl
      (fun a k => syncLocalOnlyOne (synchronize cfg fuel) cfg k a)
      ((((keys rs).filter (fun k => !(keys ls0).contains k)).dedup).foldl
        (fun a k => syncRemoteOnlyOne (synchronize cfg fuel) cfg k a)
        ((((keys rs).filter (fun k => (keys ls0).contains k)).dedup).foldl
          (fun a k => syncCommonOne (synchronize cfg fuel) cfg k a)
          ⟨st, ls0, rs, none⟩))).err = none := herr
  show DirSynced cfg.downloadOnly
    (((((keys ls0).filter (fun k => !(keys rs).contains k)).dedup).foldl
      (fun a k => syncLocalOnlyOne (synchronize cfg fuel) cfg k a)
      ((((keys rs).filter (fun k => !(keys ls0).contains k)).dedup).foldl
        (fun a k => syncRemoteOnlyOne (synchronize cfg fuel) cfg k a)
        ((((keys rs).filter (fun k => (keys ls0).contains k)).dedup).foldl
          (fun a k => syncCommonOne (synchronize cfg fuel) cfg k a)
          ⟨st, ls0, rs, none⟩))).ls)
    (((((keys ls0).filter (fun k => !(keys rs).contains k)).dedup).foldl
      (fun a k => syncLocalOnlyOne (synchronize cfg fuel) cfg k a)
      ((((keys rs).filter (fun k => !(keys ls0).contains k)).dedup).foldl
        (fun a k => syncRemoteOnlyOne (synchronize cfg fuel) cfg k a)
        ((((keys rs).filter (fun k => (keys ls0).contains k)).dedup).foldl
          (fun a k => syncCommonOne (synchronize cfg fuel) cfg k a)
          ⟨st, ls0, rs, none⟩))).rs)
  rcases ha1 : (((keys rs).filter (fun k => (keys ls0).contains k)).dedup).foldl
      (fun a k => syncCommonOne (synchronize cfg fuel) cfg k a) ⟨st, ls0, rs, none⟩
    with ⟨st1, ls1, rs1, err1⟩
  rw [ha1] at herrB
  rcases err1 with _ | e1
  · rcases ha2 : (((keys rs).filter (fun k => !(keys ls0).contains k)).dedup).foldl
        (fun a k => syncRemoteOnlyOne (synchronize cfg fuel) cfg k a)
        ⟨st1, ls1, rs1, none⟩ with ⟨st2, ls2, rs2, err2⟩
    rw [ha2] at herrB
    rcases err2 with _ | e2
    · have herr1 : ((((keys rs).filter (fun k => (keys ls0).contains k)).dedup).foldl
          (fun a k => syncCommonOne (synchronize cfg fuel) cfg k a)
          ⟨st, ls0, rs, none⟩).err = none := by rw [ha1]
      have herr2 : ((((keys rs).filter (fun k => !(keys ls0).contains k)).dedup).foldl
          (fun a k => syncRemoteOnlyOne (synchronize cfg fuel) cfg k a)
          ⟨st1, ls1, rs1, none⟩).err = none := by rw [ha2]
      refine dirSynced_of_pairOK _ _ _ ?_
      intro n
      rcases hrn : lookupName rs n with _ | re
      · -- the name is not remote
        have hnkr : n ∉ keys rs := fun hm => by
          have hs := lookupName_isSome_of_mem_keys rs n hm
          rw [hrn] at hs
          simp at hs
        have hnotsame : n ∉ (((keys rs).filter
            (fun k => (keys ls0).contains k)).dedup) := fun hm =>
          hnkr (List.mem_of_mem_filter (List.mem_dedup.mp hm))
        have hnotrem : n ∉ (((keys rs).filter
            (fun k => !(keys ls0).contains k)).dedup) := fun hm =>
          hnkr (List.mem_of_mem_filter (List.mem_dedup.mp hm))
        have hf1 := commonFold_frame (synchronize cfg fuel) cfg
          (((keys rs).filter (fun k => (keys ls0).contains k)).dedup)
          ⟨st, ls0, rs, none⟩ n hnotsame
        rw [ha1] at hf1
        have hf2 := remoteOnlyFold_frame (synchronize cfg fuel) cfg
          (((keys rs).filter (fun k => !(keys ls0).contains k)).dedup)
          ⟨st1, ls1, rs1, none⟩ n hnotrem
        rw [ha2] at hf2
        by_cases hml : n ∈ keys ls0
        · -- local-only name: handled by the third loop
          have hmemloc : n ∈ (((keys ls0).filter
              (fun k => !(keys rs).contains k)).dedup) := by
            rw [List.mem_dedup, List.mem_filter]
            exact ⟨hml, by simpa using hnkr⟩
          exact localOnlyFold_post cfg fuel hC IH n
            (((keys ls0).filter (fun k => !(keys rs).contains k)).dedup)
            (List.nodup_dedup _) hmemloc st2 ls2 rs2
            (by rw [hf2.2, hf1.2]; exact hrn) herrB
        · -- absent on both sides: untouched throughout
          have hnotloc : n ∉ (((keys ls0).filter
              (fun k => !(keys rs).contains k)).dedup) := fun hm =>
            hml (List.mem_of_mem_filter (List.mem_dedup.mp hm))
          have hf3 := localOnlyFold_frame (synchronize cfg fuel) cfg
            (((keys ls0).filter (fun k => !(keys rs).contains k)).dedup)
            ⟨st2, ls2, rs2, none⟩ n hnotloc
          have hl0 : lookupName ls0 n = none :=
            lookupName_eq_none_of_not_mem_keys ls0 n hml
          refine ⟨?_, ?_⟩
          · intro re2 hre2
            rw [hf3.2, hf2.2, hf1.2, hrn] at hre2
            exact absurd hre2 (by simp)
          · intro node _ hln
            rw [hf3.1, hf2.1, hf1.1, hl0] at hln
            exact absurd hln (by simp [liveEntry])
      · -- the name is remote
        have hmkr : n ∈ keys rs :=
          mem_keys_of_lookupName_isSome rs n (by rw [hrn]; rfl)
        by_cases hml : n ∈ keys ls0
        · -- present on both sides: handled by the first loop
          have hmemsame : n ∈ (((keys rs).filter
              (fun k => (keys ls0).contains k)).dedup) := by
            rw [List.mem_dedup, List.mem_filter]
            exact ⟨hmkr, by simpa using hml⟩
          have hnotrem : n ∉ (((keys rs).filter
              (fun k => !(keys ls0).contains k)).dedup) := fun hm => by
            have h2 := (List.mem_filter.mp (List.mem_dedup.mp hm)).2
            simp at h2
            exact h2 hml
          have hnotloc : n ∉ (((keys ls0).filter
              (fun k => !(keys rs).contains k)).dedup) := fun hm => by
            have h2 := (List.mem_filter.mp (List.mem_dedup.mp hm)).2
            simp at h2
            exact h2 hmkr
          have hp1 := commonFold_post cfg fuel IH n
            (((keys rs).filter (fun k => (keys ls0).contains k)).dedup)
            (List.nodup_dedup _) hmemsame st ls0 rs (by rw [hrn]; rfl) herr1
          rw [ha1] at hp1
          have hf2 := remoteOnlyFold_frame (synchronize cfg fuel) cfg
            (((keys rs).filter (fun k => !(keys ls0).contains k)).dedup)
            ⟨st1, ls1, rs1, none⟩ n hnotrem
          rw [ha2] at hf2
          have hf3 := localOnlyFold_frame (synchronize cfg fuel) cfg
            (((keys ls0).filter (fun k => !(keys rs).contains k)).dedup)
            ⟨st2, ls2, rs2, none⟩ n hnotloc
          exact pairOK_frame hf3.1 hf3.2 (pairOK_frame hf2.1 hf2.2 hp1)
        · -- remote-only name: handled by the second loop
          have hmemrem : n ∈ (((keys rs).filter
              (fun k => !(keys ls0).contains k)).dedup) := by
            rw [List.mem_dedup, List.mem_filter]
            exact ⟨hmkr, by simpa using hml⟩
          have hnotsame : n ∉ (((keys rs).filter
              (fun k => (keys ls0).contains k)).dedup) := fun hm => by
            have h2 := (List.mem_filter.mp (List.mem_dedup.mp hm)).2
            simp at h2
            exact hml h2
          have hnotloc : n ∉ (((keys ls0).filter
              (fun k => !(keys rs).contains k)).dedup) := fun hm =>
            hml (List.mem_of_mem_filter (List.mem_dedup.mp hm))
          have hf1 := commonFold_frame (synchronize cfg fuel) cfg
            (((keys rs).filter (fun k => (keys ls0).contains k)).dedup)
            ⟨st, ls0, rs, none⟩ n hnotsame
          rw [ha1] at hf1
          have hp2 := remoteOnlyFold_post cfg fuel IH n
            (((keys rs).filter (fun k => !(keys ls0).contains k)).dedup)
            (List.nodup_dedup _) hmemrem st1 ls1 rs1
            (by rw [hf1.2, hrn]; rfl) herr2
          rw [ha2] at hp2
          have hf3 := localOnlyFold_frame (synchronize cfg fuel) cfg
            (((keys ls0).filter (fun k => !(keys rs).contains k)).dedup)
            ⟨st2, ls2, rs2, none⟩ n hnotloc
          exact pairOK_frame hf3.1 hf3.2 hp2
    · rw [localOnlyFold_errSome] at herrB
      simp at herrB
  · rw [remoteOnlyFold_errSome, localOnlyFold_errSome] at herrB
    simp at herrB

/-- A `synchronize` call that completes without a propagated error,
under an always-succeeding create oracle, returns a local directory
whose children are in the synced invariant against the returned remote
children. -/
theorem synchronize_establishes (cfg : Config)
    (hC : cfg.createOk = fun _ => true) :
    ∀ (fuel : Nat) (st : St) (l : Option LocalNode) (rs : RemoteDir),
      (synchronize cfg fuel st l rs).err = none →
      ∃ dmt ls2, (synchronize cfg fuel st l rs).localEntry = some (.dir dmt ls2) ∧
        DirSynced cfg.downloadOnly ls2 (synchronize cfg fuel st l rs).remote := by
  intro fuel
  induction fuel with
  | zero =>
    intro st l rs herr
    simp [synchronize] at herr
  | succ fuel ihF =>
    intro st l rs herr
    rcases l with _ | node
    · have herr2 : (syncDirBody (synchronize cfg fuel) cfg st [] rs).err = none := herr
      exact ⟨cfg.now, (syncDirBody (synchronize cfg fuel) cfg st [] rs).ls, rfl,
        syncDirBody_establishes cfg fuel hC ihF st [] rs herr2⟩
    · cases node with
      | file c t => exact absurd herr (by simp [synchronize])
      | dir dmt ls0 =>
        have herr2 : (syncDirBody (synchronize cfg fuel) cfg st ls0 rs).err = none := herr
        exact ⟨dmt, (syncDirBody (synchronize cfg fuel) cfg st ls0 rs).ls, rfl,
          syncDirBody_establishes cfg fuel hC ihF st ls0 rs herr2⟩

/-- Proleptic-Gregorian leap year (`calendar.isleap`, also the rule
used by `datetime`). -/
def isLeap (y : Nat) : Bool :=
  (y % 4 == 0 && y % 100 != 0) || y % 400 == 0

def daysInYear (y : Nat) : Nat :=
  if isLeap y then 366 else 365

/-- Month lengths of a year (`datetime._DAYS_IN_MONTH`). -/
def monthLens (leap : Bool) : List Nat :=
  [31, if leap then 29 else 28, 31, 30, 31, 30, 31, 31, 30, 31, 30, 31]

/-- Walks years upward from `y`, consuming whole years from a day
count.  The fuel bounds the walk: `utcfromtimestamp` uses fuel 8030
(years 1970-9999), so running out of fuel is exactly `datetime`'s
"year 10000 out of range" failure. -/
def splitYear : Nat → Nat → Nat → Option (Nat × Nat)
  | 0, _, _ => none
  | f + 1, y, rem =>
    if rem < daysInYear y then some (y, rem)
    else splitYear f (y + 1) (rem - daysInYear y)

/-- Walks a month-length table, consuming whole months from a
day-of-year count. -/
def splitMonth : List Nat → Nat → Nat → Nat × Nat
  | [], m, rem => (m, rem)
  | L :: Ls, m, rem =>
    if rem < L then (m, rem) else splitMonth Ls (m + 1) (rem - L)

/-- Embeds `datetime.utcfromtimestamp` on non-negative integer
timestamps: the UTC civil field tuple (year, month, day, hour, minute,
second) of the POSIX timestamp in the proleptic Gregorian calendar, or
`none` for the raised "year 10000 out of range" when the timestamp
falls past 9999-12-31T23:59:59 (`datetime.MAXYEAR`). -/
def utcfromtimestamp (t : Nat) : Option (Nat × Nat × Nat × Nat × Nat × Nat) :=
  match splitYear 8030 1970 (t / 86400) with
  | none => none
  | some (y, doy) =>
    let md := splitMonth (monthLens (isLeap y)) 1 doy
    some (y, md.1, md.2 + 1, t % 86400 / 3600, t % 86400 % 3600 / 60, t % 60)

/-- The ASCII digit character of `d` (for `d < 10`). -/
def digitChar (d : Nat) : Char :=
  Char.ofNat (48 + d)

/-- Numeric value of an ASCII digit character. -/
def charDigit (c : Char) : Nat :=
  c.toNat - 48

/-- The twenty characters of `isoformat("T") + "Z"` for a field tuple
with in-range values: `%04d-%02d-%02dT%02d:%02d:%02dZ` by digit
extraction (the `datetime` fields printed here are always in range, so
the fixed widths are exact). -/
def isoChars (y m d hh mm ss : Nat) : List Char :=
  [digitChar (y / 1000 % 10), digitChar (y / 100 % 10),
   digitChar (y / 10 % 10), digitChar (y % 10), '-',
   digitChar (m / 10 % 10), digitChar (m % 10), '-',
   digitChar (d / 10 % 10), digitChar (d % 10), 'T',
   digitChar (hh / 10 % 10), digitChar (hh % 10), ':',
   digitChar (mm / 10 % 10), digitChar (mm % 10), ':',
   digitChar (ss / 10 % 10), digitChar (ss % 10), 'Z']

/-- Embeds `Utils.convert_timestamp_datetime` (main.py lines 63-68):
`datetime.utcfromtimestamp(timestamp).isoformat("T") + "Z"`, as a
character list; `none` models the raised exception. -/
def convert_timestamp_datetime (t : Nat) : Option (List Char) :=
  (utcfromtimestamp t).map
    (fun v => isoChars v.1 v.2.1 v.2.2.1 v.2.2.2.1 v.2.2.2.2.1 v.2.2.2.2.2)

/-- Drops a leading run of ASCII digits. -/
def dropDigits : List Char → List Char
  | [] => []
  | c :: cs => if c.isDigit then dropDigits cs else c :: cs

/-- One left-to-right pass of `re.sub(r"\.\d+", "", s)`: every dot
followed by at least one digit is removed together with the maximal
digit run after it.  Fueled by the string length (each step consumes at
least one character). -/
def stripFracAux : Nat → List Char → List Char
  | 0, cs => cs
  | f + 1, cs =>
    match cs with
    | [] => []
    | c :: cs2 =>
      if c = '.' ∧ (cs2.head?.map Char.isDigit).getD false = true then
        stripFracAux f (dropDigits cs2)
      else c :: stripFracAux f cs2

def stripFrac (cs : List Char) : List Char :=
  stripFracAux cs.length cs

/-- Embeds `time.strptime(date, "%Y-%m-%dT%H:%M:%SZ")` on the
zero-padded strings produced by `isoformat`: exactly four digits for
`%Y` (CPython `_strptime`), two-digit month 01-12, day 01-31, hour
00-23, minute and second 00-59, with the literal separators, and
nothing after the `Z`.  (CPython additionally accepts un-padded
one-digit fields, which `isoformat` never emits.) -/
def parseGDT (cs : List Char) : Option (Nat × Nat × Nat × Nat × Nat × Nat) :=
  match cs with
  | [y1, y2, y3, y4, s1, m1, m2, s2, d1, d2, s3,
     a1, a2, s4, b1, b2, s5, c1, c2, s6] =>
    if s1 = '-' ∧ s2 = '-' ∧ s3 = 'T' ∧ s4 = ':' ∧ s5 = ':' ∧ s6 = 'Z' ∧
        y1.isDigit ∧ y2.isDigit ∧ y3.isDigit ∧ y4.isDigit ∧
        m1.isDigit ∧ m2.isDigit ∧ d1.isDigit ∧ d2.isDigit ∧
        a1.isDigit ∧ a2.isDigit ∧ b1.isDigit ∧ b2.isDigit ∧
        c1.isDigit ∧ c2.isDigit then
      let y := ((charDigit y1 * 10 + charDigit y2) * 10 + charDigit y3) * 10 +
        charDigit y4
      let mo := charDigit m1 * 10 + charDigit m2
      let dy := charDigit d1 * 10 + charDigit d2
      let hh := charDigit a1 * 10 + charDigit a2
      let mi := charDigit b1 * 10 + charDigit b2
      let sec := charDigit c1 * 10 + charDigit c2
      if 1 ≤ mo ∧ mo ≤ 12 ∧ 1 ≤ dy ∧ dy ≤ 31 ∧ hh ≤ 23 ∧ mi ≤ 59 ∧ sec ≤ 59 then
        some (y, mo, dy, hh, mi, sec)
      else none
    else none
  | _ => none

/-- `datetime._days_before_year(y) + 1`-style ordinal prefix: days of
the proleptic Gregorian calendar strictly before year `y`
(`(y-1)*365 + (y-1)//4 - (y-1)//100 + (y-1)//400`). -/
def daysBeforeYear (y : Nat) : Nat :=
  (y - 1) * 365 + (y - 1) / 4 - (y - 1) / 100 + (y - 1) / 400

/-- `datetime._DAYS_BEFORE_MONTH[m] + (m > 2 and leap)`. -/
def daysBeforeMonth (leap : Bool) (m : Nat) : Nat :=
  (match m with
   | 1 => 0 | 2 => 31 | 3 => 59 | 4 => 90 | 5 => 120 | 6 => 151
   | 7 => 181 | 8 => 212 | 9 => 243 | 10 => 273 | 11 => 304 | _ => 334) +
  (if leap && decide (2 < m) then 1 else 0)

/-- `datetime.date(y, m, d).toordinal()`. -/
def toordinal (y m d : Nat) : Nat :=
  daysBeforeYear y + daysBeforeMonth (isLeap y) m + d

/-- `calendar.timegm` on a parsed field tuple: seconds since the epoch,
via the ordinal of the civil date minus the epoch ordinal 719163
(= `date(1970,1,1).toordinal()`); negative for pre-1970 dates. -/
def timegm (y m d hh mm ss : Nat) : Int :=
  ((toordinal y m d : Int) - 719163) * 86400 + hh * 3600 + mm * 60 + ss

/-- Embeds `Utils.convert_datetime_timestamp` (main.py lines 55-61):
strip fractional seconds, `strptime` with `"%Y-%m-%dT%H:%M:%SZ"`, then
`calendar.timegm`; `none` models a raised parse failure. -/
def convert_datetime_timestamp (cs : List Char) : Option Int :=
  (parseGDT (stripFrac cs)).map
    (fun v => timegm v.1 v.2.1 v.2.2.1 v.2.2.2.1 v.2.2.2.2.1 v.2.2.2.2.2)

/-- Total days of `k` consecutive years starting at `y`. -/
def sumDaysYears : Nat → Nat → Nat
  | _, 0 => 0
  | y, k + 1 => daysInYear y + sumDaysYears (y + 1) k

theorem splitYear_spec : ∀ (f y0 rem y doy : Nat),
    splitYear f y0 rem = some (y, doy) →
    y0 ≤ y ∧ y < y0 + f ∧ doy < daysInYear y ∧
      sumDaysYears y0 (y - y0) + doy = rem := by
  intro f
  induction f with
  | zero =>
    intro y0 rem y doy h
    simp [splitYear] at h
  | succ f ih =>
    intro y0 rem y doy h
    rw [splitYear] at h
    by_cases hlt : rem < daysInYear y0
    · rw [if_pos hlt] at h
      simp at h
      obtain ⟨hy, hd⟩ := h
      subst hy
      subst hd
      refine ⟨Nat.le_refl _, by omega, hlt, ?_⟩
      rw [Nat.sub_self, sumDaysYears]
      omega
    · rw [if_neg hlt] at h
      obtain ⟨h1, h2, h3, h4⟩ := ih (y0 + 1) (rem - daysInYear y0) y doy h
      refine ⟨by omega, by omega, h3, ?_⟩
      have hk : y - y0 = (y - (y0 + 1)) + 1 := by omega
      rw [hk, sumDaysYears]
      omega

theorem splitYear_none : ∀ (f y0 rem : Nat), sumDaysYears y0 f ≤ rem →
    splitYear f y0 rem = none := by
  intro f
  induction f with
  | zero =>
    intro y0 rem _
    rfl
  | succ f ih =>
    intro y0 rem h
    rw [sumDaysYears] at h
    rw [splitYear, if_neg (by omega)]
    exact ih (y0 + 1) (rem - daysInYear y0) (by omega)

theorem splitYear_total : ∀ (f y0 rem : Nat), rem < sumDaysYears y0 f →
    (splitYear f y0 rem).isSome := by
  intro f
  induction f with
  | zero =>
    intro y0 rem h
    simp [sumDaysYears] at h
  | succ f ih =>
    intro y0 rem h
    rw [splitYear]
    by_cases hlt : rem < daysInYear y0
    · rw [if_pos hlt]
      rfl
    · rw [if_neg hlt]
      refine ih (y0 + 1) (rem - daysInYear y0) ?_
      rw [sumDaysYears] at h
      omega

theorem isLeap_iff (y : Nat) :
    isLeap y = true ↔ (y % 4 = 0 ∧ ¬ y % 100 = 0) ∨ y % 400 = 0 := by
  simp [isLeap]

set_option maxHeartbeats 2000000 in
theorem daysBeforeYear_succ (y : Nat) (hy : 1 ≤ y) :
    daysBeforeYear (y + 1) = daysBeforeYear y + daysInYear y := by
  have hiff := isLeap_iff y
  cases hL : isLeap y with
  | true =>
    rw [hL] at hiff
    simp only [true_iff] at hiff
    simp [daysBeforeYear, daysInYear, hL]
    clear hL
    rcases hiff with ⟨h4, h100⟩ | h400 <;> omega
  | false =>
    rw [hL] at hiff
    simp only [Bool.false_eq_true, false_iff] at hiff
    push_neg at hiff
    simp [daysBeforeYear, daysInYear, hL]
    clear hL
    by_cases h4 : y % 4 = 0
    · have h100 := hiff.1 h4
      have h400 := hiff.2
      clear hiff
      omega
    · have h400 := hiff.2
      clear hiff
      omega

theorem daysBeforeYear_sum (y0 : Nat) (hy0 : 1 ≤ y0) :
    ∀ k, daysBeforeYear (y0 + k) = daysBeforeYear y0 + sumDaysYears y0 k := by
  intro k
  induction k generalizing y0 with
  | zero => simp [sumDaysYears]
  | succ k ih =>
    have h1 : y0 + (k + 1) = (y0 + 1) + k := by omega
    rw [h1, ih (y0 + 1) (by omega), sumDaysYears, daysBeforeYear_succ y0 hy0]
    omega

theorem sumDaysYears_1970 : sumDaysYears 1970 8030 = 2932897 := by
  have h := daysBeforeYear_sum 1970 (by decide) 8030
  have h1 : daysBeforeYear 1970 = 719162 := by decide
  have h2 : daysBeforeYear (1970 + 8030) = 3652059 := by decide
  omega

theorem splitMonth_spec (leap : Bool) :
    ∀ doy, doy < (if leap then 366 else 365) →
    1 ≤ (splitMonth (monthLens leap) 1 doy).1 ∧
    (splitMonth (monthLens leap) 1 doy).1 ≤ 12 ∧
    (splitMonth (monthLens leap) 1 doy).2 ≤ 30 ∧
    daysBeforeMonth leap (splitMonth (monthLens leap) 1 doy).1 +
      (splitMonth (monthLens leap) 1 doy).2 = doy := by
  set_option maxRecDepth 100000 in cases leap <;> decide

theorem digitChar_isDigit (n : Nat) : (digitChar (n % 10)).isDigit = true := by
  have h : ∀ d, d < 10 → (digitChar d).isDigit = true := by decide
  exact h _ (Nat.mod_lt _ (by decide))

theorem charDigit_digitChar (n : Nat) : charDigit (digitChar (n % 10)) = n % 10 := by
  have h : ∀ d, d < 10 → charDigit (digitChar d) = d := by decide
  exact h _ (Nat.mod_lt _ (by decide))

theorem digitChar_ne_dot (n : Nat) : ¬ digitChar (n % 10) = '.' := by
  have h : ∀ d, d < 10 → ¬ digitChar d = '.' := by decide
  exact h _ (Nat.mod_lt _ (by decide))

theorem stripFracAux_no_dot : ∀ (f : Nat) (cs : List Char),
    (∀ c ∈ cs, ¬ c = '.') → stripFracAux f cs = cs := by
  intro f
  induction f with
  | zero =>
    intro cs _
    rfl
  | succ f ih =>
    intro cs h
    cases cs with
    | nil => rfl
    | cons c cs2 =>
      rw [show stripFracAux (f + 1) (c :: cs2) =
          (if c = '.' ∧ (cs2.head?.map Char.isDigit).getD false = true then
            stripFracAux f (dropDigits cs2)
          else c :: stripFracAux f cs2) from rfl,
        if_neg (fun hcon => h c (List.mem_cons_self c cs2) hcon.1),
        ih cs2 (fun c2 hc2 => h c2 (List.mem_cons_of_mem _ hc2))]

theorem stripFrac_isoChars (y m d hh mm ss : Nat) :
    stripFrac (isoChars y m d hh mm ss) = isoChars y m d hh mm ss := by
  refine stripFracAux_no_dot _ _ ?_
  intro c hc
  simp only [isoChars, List.mem_cons, List.not_mem_nil, or_false] at hc
  rcases hc with rfl | rfl | rfl | rfl | rfl | rfl | rfl | rfl | rfl | rfl |
    rfl | rfl | rfl | rfl | rfl | rfl | rfl | rfl | rfl | rfl <;>
    first
    | exact digitChar_ne_dot _
    | decide

theorem parseGDT_isoChars (y m d hh mm ss : Nat)
    (hy : y < 10000) (hm1 : 1 ≤ m) (hm2 : m ≤ 12) (hd1 : 1 ≤ d) (hd2 : d ≤ 31)
    (hhh : hh ≤ 23) (hmm : mm ≤ 59) (hss : ss ≤ 59) :
    parseGDT (isoChars y m d hh mm ss) = some (y, m, d, hh, mm, ss) := by
  rw [show parseGDT (isoChars y m d hh mm ss) =
      (if '-' = '-' ∧ '-' = '-' ∧ 'T' = 'T' ∧ ':' = ':' ∧ ':' = ':' ∧ 'Z' = 'Z' ∧
          (digitChar (y / 1000 % 10)).isDigit ∧ (digitChar (y / 100 % 10)).isDigit ∧
          (digitChar (y / 10 % 10)).isDigit ∧ (digitChar (y % 10)).isDigit ∧
          (digitChar (m / 10 % 10)).isDigit ∧ (digitChar (m % 10)).isDigit ∧
          (digitChar (d / 10 % 10)).isDigit ∧ (digitChar (d % 10)).isDigit ∧
          (digitChar (hh / 10 % 10)).isDigit ∧ (digitChar (hh % 10)).isDigit ∧
          (digitChar (mm / 10 % 10)).isDigit ∧ (digitChar (mm % 10)).isDigit ∧
          (digitChar (ss / 10 % 10)).isDigit ∧ (digitChar (ss % 10)).isDigit then
        (if 1 ≤ charDigit (digitChar (m / 10 % 10)) * 10 + charDigit (digitChar (m % 10)) ∧
            charDigit (digitChar (m / 10 % 10)) * 10 + charDigit (digitChar (m % 10)) ≤ 12 ∧
            1 ≤ charDigit (digitChar (d / 10 % 10)) * 10 + charDigit (digitChar (d % 10)) ∧
            charDigit (digitChar (d / 10 % 10)) * 10 + charDigit (digitChar (d % 10)) ≤ 31 ∧
            charDigit (digitChar (hh / 10 % 10)) * 10 + charDigit (digitChar (hh % 10)) ≤ 23 ∧
            charDigit (digitChar (mm / 10 % 10)) * 10 + charDigit (digitChar (mm % 10)) ≤ 59 ∧
            charDigit (digitChar (ss / 10 % 10)) * 10 + charDigit (digitChar (ss % 10)) ≤ 59 then
          some (((charDigit (digitChar (y / 1000 % 10)) * 10 +
                charDigit (digitChar (y / 100 % 10))) * 10 +
                charDigit (digitChar (y / 10 % 10))) * 10 +
                charDigit (digitChar (y % 10)),
            charDigit (digitChar (m / 10 % 10)) * 10 + charDigit (digitChar (m % 10)),
            charDigit (digitChar (d / 10 % 10)) * 10 + charDigit (digitChar (d % 10)),
            charDigit (digitChar (hh / 10 % 10)) * 10 + charDigit (digitChar (hh % 10)),
            charDigit (digitChar (mm / 10 % 10)) * 10 + charDigit (digitChar (mm % 10)),
            charDigit (digitChar (ss / 10 % 10)) * 10 + charDigit (digitChar (ss % 10)))
        else none)
      else none) from rfl]
  rw [if_pos ⟨rfl, rfl, rfl, rfl, rfl, rfl,
    digitChar_isDigit _, digitChar_isDigit _, digitChar_isDigit _, digitChar_isDigit _,
    digitChar_isDigit _, digitChar_isDigit _, digitChar_isDigit _, digitChar_isDigit _,
    digitChar_isDigit _, digitChar_isDigit _, digitChar_isDigit _, digitChar_isDigit _,
    digitChar_isDigit _, digitChar_isDigit _⟩]
  simp only [charDigit_digitChar]
  rw [if_pos (by omega)]
  have e1 : ((y / 1000 % 10 * 10 + y / 100 % 10) * 10 + y / 10 % 10) * 10 + y % 10 = y := by
    omega
  have e2 : m / 10 % 10 * 10 + m % 10 = m := by omega
  have e3 : d / 10 % 10 * 10 + d % 10 = d := by omega
  have e4 : hh / 10 % 10 * 10 + hh % 10 = hh := by omega
  have e5 : mm / 10 % 10 * 10 + mm % 10 = mm := by omega
  have e6 : ss / 10 % 10 * 10 + ss % 10 = ss := by omega
  rw [e1, e2, e3, e4, e5, e6]

/-- C3 (amended): the timestamp/datetime round trip
`convert_datetime_timestamp (convert_timestamp_datetime t)` returns `t`
for every non-negative integer `t` up to 253402300799
(9999-12-31T23:59:59, `datetime.max`); it does NOT hold for all
non-negative integers: past that bound `datetime.utcfromtimestamp`
raises a year-out-of-range error instead of producing a datetime. -/
theorem timestamp_round_trip (t : Nat) (h : t ≤ 253402300799) :
    Option.bind (convert_timestamp_datetime t) convert_datetime_timestamp =
      some (t : Int) := by
  have htot : t / 86400 < sumDaysYears 1970 8030 := by
    rw [sumDaysYears_1970]
    omega
  obtain ⟨yd, hsy⟩ := Option.isSome_iff_exists.mp
    (splitYear_total 8030 1970 (t / 86400) htot)
  obtain ⟨y, doy⟩ := yd
  obtain ⟨hy1, hy2, hdoy, hsum⟩ := splitYear_spec 8030 1970 (t / 86400) y doy hsy
  have hdoy2 : doy < (if isLeap y then 366 else 365) := hdoy
  obtain ⟨hm1, hm12, hd30, hdbm⟩ := splitMonth_spec (isLeap y) doy hdoy2
  have hiso : convert_timestamp_datetime t =
      some (isoChars y (splitMonth (monthLens (isLeap y)) 1 doy).1
        ((splitMonth (monthLens (isLeap y)) 1 doy).2 + 1)
        (t % 86400 / 3600) (t % 86400 % 3600 / 60) (t % 60)) := by
    rw [convert_timestamp_datetime, utcfromtimestamp, hsy]
    rfl
  rw [hiso, Option.some_bind, convert_datetime_timestamp, stripFrac_isoChars,
    parseGDT_isoChars _ _ _ _ _ _ (by omega) hm1 hm12 (by omega) (by omega)
      (by omega) (by omega) (by omega),
    Option.map_some']
  have hdby : daysBeforeYear y = 719162 + sumDaysYears 1970 (y - 1970) := by
    have h2 := daysBeforeYear_sum 1970 (by decide) (y - 1970)
    rw [show 1970 + (y - 1970) = y from by omega] at h2
    rw [h2, show daysBeforeYear 1970 = 719162 from by decide]
  dsimp only
  rw [Option.some_inj, timegm, toordinal, hdby]
  omega

/-- C3 counterexample: at t = 253402300800, the first second of year
10000, converting to the remote format raises (`datetime.MAXYEAR` is
9999), so the round trip produces nothing rather than `t`. -/
theorem timestamp_round_trip_fails_at_year_10000 :
    convert_timestamp_datetime 253402300800 = none ∧
    Option.bind (convert_timestamp_datetime 253402300800)
      convert_datetime_timestamp = none := by
  have hdiv : (253402300800 : Nat) / 86400 = 2932897 := by decide
  have hnone : splitYear 8030 1970 (253402300800 / 86400) = none := by
    refine splitYear_none 8030 1970 _ ?_
    rw [sumDaysYears_1970, hdiv]
  have h1 : convert_timestamp_datetime 253402300800 = none := by
    rw [convert_timestamp_datetime, utcfromtimestamp, hnone]
    rfl
  exact ⟨h1, by rw [h1]; rfl⟩

/-- Witness for C3 at a concrete input: the timestamp 951826154
(2000-02-29T12:09:14Z) survives the round trip. -/
theorem timestamp_round_trip_witness :
    951826154 ≤ 253402300799 ∧
    Option.bind (convert_timestamp_datetime 951826154)
      convert_datetime_timestamp = some (951826154 : Int) :=
  ⟨by decide, timestamp_round_trip 951826154 (by decide)⟩

/-- C1 (amended): after a first `synchronize` run that completes without
a propagated error under an always-succeeding create oracle, a second
run over the resulting pair of trees with no external mutation in
between performs no transfers: it changes neither tree, issues no
create/update and no download call, and every resolution it records is
`Unchanged`, `LocalNewer` (the suppressed branch, which persists run
after run), or a `RemoteNewer` on a remote folder (folders are re-visited
every run); it is NOT true that every common name resolves to
`Unchanged`. -/
theorem second_run_performs_no_transfers (cfg : Config)
    (hC : cfg.createOk = fun _ => true)
    (fuel1 fuel2 : Nat) (st1 st2 : St) (l : Option LocalNode) (rs : RemoteDir)
    (herr : (synchronize cfg fuel1 st1 l rs).err = none) :
    ∃ dmt ls2,
      (synchronize cfg fuel1 st1 l rs).localEntry = some (.dir dmt ls2) ∧
      CleanRun st2 dmt ls2 (synchronize cfg fuel1 st1 l rs).remote
        (synchronize cfg fuel2 st2 (some (.dir dmt ls2))
          (synchronize cfg fuel1 st1 l rs).remote) := by
  obtain ⟨dmt, ls2, hol, hds⟩ := synchronize_establishes cfg hC fuel1 st1 l rs herr
  exact ⟨dmt, ls2, hol, synchronize_synced cfg fuel2 st2 dmt ls2 _ hds⟩

/-- Witness for C1 at a concrete input: one local file newer than its
remote twin; the second run changes nothing and performs no calls. -/
theorem second_run_performs_no_transfers_witness :
    ∃ dmt ls2,
      (synchronize ⟨false, 1000, fun _ => true, fun _ => true⟩ 2 ⟨0, 0, []⟩
        (some (.dir 7 [("a", some (.file "x" 10))]))
        [("a", .file 5 (some (md5hex "y")) "y")]).localEntry =
          some (.dir dmt ls2) ∧
      CleanRun ⟨0, 0, []⟩ dmt ls2
        (synchronize ⟨false, 1000, fun _ => true, fun _ => true⟩ 2 ⟨0, 0, []⟩
          (some (.dir 7 [("a", some (.file "x" 10))]))
          [("a", .file 5 (some (md5hex "y")) "y")]).remote
        (synchronize ⟨false, 1000, fun _ => true, fun _ => true⟩ 2 ⟨0, 0, []⟩
          (some (.dir dmt ls2))
          (synchronize ⟨false, 1000, fun _ => true, fun _ => true⟩ 2 ⟨0, 0, []⟩
            (some (.dir 7 [("a", some (.file "x" 10))]))
            [("a", .file 5 (some (md5hex "y")) "y")]).remote) :=
  second_run_performs_no_transfers ⟨false, 1000, fun _ => true, fun _ => true⟩
    rfl 2 2 ⟨0, 0, []⟩ ⟨0, 0, []⟩
    (some (.dir 7 [("a", some (.file "x" 10))]))
    [("a", .file 5 (some (md5hex "y")) "y")] rfl

/-- C2: with differing timestamps and a remote checksum equal to the
local file's fingerprint, `compare_files` overrides the tentative
newer-side decision and returns `Unchanged` (`False`). -/
theorem compare_files_md5_override (localMtime remoteMtime : Nat) (content : String)
    (hne : localMtime ≠ remoteMtime) :
    compare_files localMtime (.ok content) remoteMtime (some (md5hex content)) =
      .ok .unchanged := by
  have hmd5 : optTruthy (some (md5hex content)) = true := by
    simp [optTruthy, md5hex_ne_empty content]
  rcases Nat.lt_trichotomy remoteMtime localMtime with h | h | h
  · simp [compare_files, h, hmd5]
  · exact absurd h.symm hne
  · simp [compare_files, h, Nat.lt_asymm h, hmd5]

/-- Witness for C2 at a concrete input. -/
theorem compare_files_md5_override_witness :
    compare_files 7 (.ok "abc") 3 (some (md5hex "abc")) = .ok .unchanged :=
  compare_files_md5_override 7 3 "abc" (by decide)

/-- C7: a name listed locally whose path is gone at comparison time
(modelled by a `none` entry) resolves to `RemoteNewer` (`"remote"`)
without raising, whatever the remote entry is. -/
theorem resolveCommon_vanished_remoteNewer (re : RemoteNode) :
    resolveCommon none re = .ok .remoteNewer := by
  rfl

/-- C9: with equal timestamps `compare_files` returns `Unchanged`
without forcing the local read (`readLocal` is arbitrary, even a failed
read) and without looking at the checksum, so diverging content behind
equal timestamps is never detected. -/
theorem compare_files_equal_times_unchanged (t : Nat) (readLocal : Except Err String)
    (remoteMd5 : Option String) :
    compare_files t readLocal t remoteMd5 = .ok .unchanged := by
  simp [compare_files]

/-- C4: for a matched name whose resolution is `LocalNewer`, the
`same_files` loop body performs nothing beyond recording the decision:
the local and remote trees are returned untouched, no transfer or visit
event is emitted, and the recursive `synchronize` callback is never
invoked (the conclusion holds for every `recurse`). -/
theorem syncCommonOne_localNewer_noop (recurse : Recurse) (cfg : Config) (n : String)
    (st : St) (ls : LocalDir) (rs : RemoteDir) (re : RemoteNode)
    (hre : lookupName rs n = some re)
    (hres : resolveCommon (liveEntry (lookupName ls n)) re = .ok .localNewer) :
    syncCommonOne recurse cfg n ⟨st, ls, rs, none⟩ =
      ⟨St.emit st (.resolved n .localNewer re.isFolder), ls, rs, none⟩ := by
  simp [syncCommonOne, hre, hres]

/-- Witness for C4 at a concrete input: a local file newer than the
matched remote file with differing fingerprints, under a recursion
callback that would be visible if it ran. -/
theorem syncCommonOne_localNewer_noop_witness :
    syncCommonOne (fun st _ _ => ⟨St.emit st (.visit "BOOM"), none, [], none⟩)
        ⟨false, 0, fun _ => true, fun _ => true⟩ "a"
        ⟨⟨0, 0, []⟩, [("a", some (.file "x" 10))],
          [("a", .file 5 (some (md5hex "y")) "y")], none⟩ =
      ⟨St.emit ⟨0, 0, []⟩ (.resolved "a" .localNewer false),
        [("a", some (.file "x" 10))], [("a", .file 5 (some (md5hex "y")) "y")], none⟩ :=
  syncCommonOne_localNewer_noop _ _ "a" _ _ _ (.file 5 (some (md5hex "y")) "y")
    rfl rfl

/-- C6: with download-only mode enabled, `upload_file` and
`upload_folder` return the negative result `False` without raising,
without consuming a remote-store call and without logging anything, and
the `different_files` loop body for a local-only name (file, directory
or vanished entry) leaves the whole state untouched: no remote creation
and no recursive descent (for every `recurse`). -/
theorem download_only_suppression (cfg : Config) (hd : cfg.downloadOnly = true) :
    (∀ (st : St) (n : String) (src : Option LocalNode),
        upload_file cfg st n src = (st, .ok none)) ∧
    (∀ (st : St) (n : String), upload_folder cfg st n = (st, none)) ∧
    (∀ (recurse : Recurse) (n : String) (st : St) (ls : LocalDir) (rs : RemoteDir),
        syncLocalOnlyOne recurse cfg n ⟨st, ls, rs, none⟩ = ⟨st, ls, rs, none⟩) := by
  refine ⟨?_, ?_, ?_⟩
  · intro st n src
    simp [upload_file, hd]
  · intro st n
    simp [upload_folder, hd]
  · intro recurse n st ls rs
    rcases h : liveEntry (lookupName ls n) with _ | node
    · simp [syncLocalOnlyOne, h, upload_file, hd]
    · cases node with
      | file c t => simp [syncLocalOnlyOne, h, upload_file, hd]
      | dir t ls2 => simp [syncLocalOnlyOne, h, upload_folder, hd]

/-- C8 counterexample: not every failure during an upload is caught.  A
local-only name whose file vanished between listing and upload makes
`upload_file` raise `FileNotFoundError` from `get_local_file_timestamp`
(line 171, outside the `try`), aborting the pass: the sibling name `b`
is a perfectly uploadable file, yet no event at all is emitted for it
and the run ends with a propagated error instead of a negative result. -/
theorem upload_vanished_source_aborts_traversal :
    (synchronize ⟨false, 0, fun _ => true, fun _ => true⟩ 3 ⟨0, 0, []⟩
        (some (.dir 0 [("a", none), ("b", some (.file "xb" 1))])) []).err =
      some .fileNotFound ∧
    (synchronize ⟨false, 0, fun _ => true, fun _ => true⟩ 3 ⟨0, 0, []⟩
        (some (.dir 0 [("a", none), ("b", some (.file "xb" 1))])) []).st.events =
      [] := by
  constructor <;> rfl

/-- C8 (amended): failures of the remote-store call during an upload or
folder creation are caught and reported as the negative result `False`
(with a logged event) without raising, so they never set the error
channel and the traversal of sibling names continues; a failure during a
download is not caught and propagates; and a propagated error makes
every remaining loop body a no-op, aborting the traversal branch.  The
uncaught exception the counterexample exhibits (vanished upload source,
raised before the `try`) is the one upload-side exception this does not
cover. -/
theorem upload_api_failures_caught_download_failures_propagate :
    (∀ (cfg : Config) (st : St) (n c : String) (t : Nat),
      ∃ r, (upload_file cfg st n (some (.file c t))).2 = .ok r) ∧
    (∀ (cfg : Config) (st : St) (n c : String) (t : Nat),
      cfg.downloadOnly = false → cfg.createOk st.upCalls = false →
      upload_file cfg st n (some (.file c t)) =
        (St.emit { st with upCalls := st.upCalls + 1 } (.uploadFailed n), .ok none)) ∧
    (∀ (cfg : Config) (st : St) (n : String),
      cfg.downloadOnly = false → cfg.createOk st.upCalls = false →
      upload_folder cfg st n =
        (St.emit { st with upCalls := st.upCalls + 1 } (.createFolderFailed n), none)) ∧
    (∀ (recurse : Recurse) (cfg : Config) (n : String) (st : St)
        (ls : LocalDir) (rs : RemoteDir) (node : LocalNode),
      liveEntry (lookupName ls n) = some node →
      cfg.downloadOnly = false → cfg.createOk st.upCalls = false →
      (syncLocalOnlyOne recurse cfg n ⟨st, ls, rs, none⟩).err = none ∧
      (syncLocalOnlyOne recurse cfg n ⟨st, ls, rs, none⟩).rs = rs) ∧
    (∀ (cfg : Config) (st : St) (n : String) (target : Option LocalNode)
        (rmt : Nat) (rc : String),
      cfg.downloadOk st.downCalls = false →
      (download_file cfg st n target rmt rc).err = some .apiError) ∧
    (∀ (recurse : Recurse) (cfg : Config) (n : String) (st : St)
        (ls : LocalDir) (rs : RemoteDir) (e : Err),
      syncCommonOne recurse cfg n ⟨st, ls, rs, some e⟩ = ⟨st, ls, rs, some e⟩ ∧
      syncRemoteOnlyOne recurse cfg n ⟨st, ls, rs, some e⟩ = ⟨st, ls, rs, some e⟩ ∧
      syncLocalOnlyOne recurse cfg n ⟨st, ls, rs, some e⟩ = ⟨st, ls, rs, some e⟩) := by
  refine ⟨?_, ?_, ?_, ?_, ?_, ?_⟩
  · intro cfg st n c t
    by_cases hd : cfg.downloadOnly
    · exact ⟨none, by simp [upload_file, hd]⟩
    · by_cases hc : cfg.createOk st.upCalls
      · exact ⟨some (.file t (some (md5hex c)) c), by
          simp [upload_file, hd, St.createCall, hc]⟩
      · exact ⟨none, by simp [upload_file, hd, St.createCall, hc]⟩
  · intro cfg st n c t hd hc
    simp [upload_file, hd, St.createCall, hc]
  · intro cfg st n hd hc
    simp [upload_folder, hd, St.createCall, hc]
  · intro recurse cfg n st ls rs node h hd hc
    cases node with
    | file c t =>
      constructor <;>
        simp [syncLocalOnlyOne, h, upload_file, hd, St.createCall, hc]
    | dir t dls =>
      constructor <;>
        simp [syncLocalOnlyOne, h, upload_folder, hd, St.createCall, hc]
  · intro cfg st n target rmt rc hc
    simp [download_file, St.downloadCall, hc]
  · intro recurse cfg n st ls rs e
    refine ⟨?_, ?_, ?_⟩ <;> rfl

/-- Witness for C8 at concrete inputs: a failing create call is reported
as `(uploadFailed, False)`, and a failing `get_media` call surfaces as a
propagated `apiError`. -/
theorem upload_api_failures_caught_witness :
    upload_file ⟨false, 9, fun _ => false, fun _ => true⟩ ⟨0, 0, []⟩ "f"
        (some (.file "c" 3)) =
      (St.emit ⟨1, 0, []⟩ (.uploadFailed "f"), .ok none) ∧
    (download_file ⟨false, 9, fun _ => true, fun _ => false⟩ ⟨0, 0, []⟩ "g"
        none 5 "body").err = some .apiError :=
  ⟨upload_api_failures_caught_download_failures_propagate.2.1 _ _ "f" "c" 3 rfl rfl,
   upload_api_failures_caught_download_failures_propagate.2.2.2.2.1 _ _ "g" none 5
     "body" rfl⟩

/-- Witness for C6 at concrete inputs (file upload, folder creation and
a local-only directory entry), with a recursion callback that would be
visible if it ran. -/
theorem download_only_suppression_witness :
    upload_file ⟨true, 7, fun _ => true, fun _ => true⟩ ⟨0, 0, []⟩ "f"
        (some (.file "c" 3)) = (⟨0, 0, []⟩, .ok none) ∧
    upload_folder ⟨true, 7, fun _ => true, fun _ => true⟩ ⟨0, 0, []⟩ "d" =
        (⟨0, 0, []⟩, none) ∧
    syncLocalOnlyOne (fun st _ _ => ⟨St.emit st (.visit "BOOM"), none, [], none⟩)
        ⟨true, 7, fun _ => true, fun _ => true⟩ "d"
        ⟨⟨0, 0, []⟩, [("d", some (.dir 1 []))], [], none⟩ =
      ⟨⟨0, 0, []⟩, [("d", some (.dir 1 []))], [], none⟩ :=
  ⟨(download_only_suppression _ rfl).1 _ _ _,
   (download_only_suppression _ rfl).2.1 _ _,
   (download_only_suppression _ rfl).2.2 _ _ _ _ _⟩

end GC
